import Mathlib

/-!
# Sticky modifiers behaviour (`behaviors/behavior_sticky_modifiers.c`)

A shallow embedding of the sticky-modifier engine: the global state record,
`raise_modifiers`, the two binding callbacks and the keycode-state-changed
listener.  The event manager is not part of this module; every event the
engine puts on the bus is recorded in a trace and handed back synchronously
to the listener, which is how the listener is re-entered.  The depth of that
re-entry is bounded by a fuel argument, the loop of `raise_modifiers` by the
eight bits of its `uint8_t` argument.
-/

namespace StickyModifiers

/-! ## Data model -/

/-- The record `struct sticky_modifiers_state`; the two `uint8_t` fields are
naturals, kept below 256 by the stores. -/
structure sticky_modifiers_state where
  modifiers_pressed : Nat
  modifiers_accumulated : Nat
  normal_mode : Bool
deriving DecidableEq, Repr

/-- The zero-initialised global `sticky_modifiers_state = {}`. -/
def initial_state : sticky_modifiers_state :=
  { modifiers_pressed := 0, modifiers_accumulated := 0, normal_mode := false }

/-- Both bit sets fit their `uint8_t` fields. -/
def valid (s : sticky_modifiers_state) : Prop :=
  s.modifiers_pressed < 256 ∧ s.modifiers_accumulated < 256

instance (s : sticky_modifiers_state) : Decidable (valid s) := by
  unfold valid; infer_instance

/-- The payload of a keycode-state-changed event. -/
structure zmk_keycode_state_changed where
  usage_page : Nat
  keycode : Nat
  implicit_modifiers : Nat
  explicit_modifiers : Nat
  state : Bool
  timestamp : Int
deriving DecidableEq, Repr

/-- A generic bus event: a keycode-state-changed event or any other kind. -/
inductive zmk_event_t where
  | keycode_state_changed (ev : zmk_keycode_state_changed)
  | other
deriving DecidableEq, Repr

/-- The cast `as_zmk_keycode_state_changed`: `none` stands for `NULL`. -/
def as_zmk_keycode_state_changed : zmk_event_t → Option zmk_keycode_state_changed
  | zmk_event_t.keycode_state_changed ev => some ev
  | zmk_event_t.other => none

/-- The binding descriptor handed to the callbacks. -/
structure zmk_behavior_binding where
  param1 : Nat
  param2 : Nat
deriving DecidableEq, Repr

/-- The binding event handed to the callbacks. -/
structure zmk_behavior_binding_event where
  layer : Nat
  position : Nat
  timestamp : Int
deriving DecidableEq, Repr

/-- Dispositions a listener returns to the event manager. -/
inductive zmk_ev_result where
  | ZMK_EV_EVENT_BUBBLE
  | ZMK_EV_EVENT_HANDLED
deriving DecidableEq, Repr

/-- Return codes of a binding callback. -/
inductive zmk_behavior_result where
  | ZMK_BEHAVIOR_OPAQUE
  | ZMK_BEHAVIOR_TRANSPARENT
deriving DecidableEq, Repr

/-- What the firmware around the module fixes: the two HID constants, how an
encoded keycode is unpacked into the payload fields of an event (usage page,
usage id, implicit and explicit modifiers), and whether an event released
with `ZMK_EVENT_RELEASE` is handed to this listener again. -/
structure Platform where
  HID_USAGE_KEY : Nat
  HID_USAGE_KEY_KEYBOARD_LEFTCONTROL : Nat
  decode_encoded : Nat → Nat × Nat × Nat × Nat
  release_reenters : Bool

/-- The event built by `raise_zmk_keycode_state_changed_from_encoded`: the
payload decoded from `encoded`, with the given state and timestamp. -/
def zmk_keycode_state_changed_from_encoded (P : Platform) (encoded : Nat) (pressed : Bool)
    (timestamp : Int) : zmk_keycode_state_changed :=
  { usage_page := (P.decode_encoded encoded).1
    keycode := (P.decode_encoded encoded).2.1
    implicit_modifiers := (P.decode_encoded encoded).2.2.1
    explicit_modifiers := (P.decode_encoded encoded).2.2.2
    state := pressed
    timestamp := timestamp }

/-- An event put on the bus by the engine: raised from an encoded keycode, or
a copy of a received event released again. -/
inductive BusEvent where
  | raised (encoded : Nat) (pressed : Bool) (timestamp : Int)
  | released (ev : zmk_keycode_state_changed)
deriving DecidableEq, Repr

/-- One emission: the event, and the engine state at the moment it is put on
the bus (the state a re-entered listener observes). -/
structure Emission where
  event : BusEvent
  at_state : sticky_modifiers_state
deriving DecidableEq, Repr

abbrev Trace := List Emission

/-- The events of a trace, in emission order. -/
def events (tr : Trace) : List BusEvent := tr.map Emission.event

/-- The synchronous delivery of a bus event to the listener. -/
abbrev Deliver :=
  sticky_modifiers_state → zmk_event_t → Option (zmk_ev_result × sticky_modifiers_state × Trace)

/-! ## Operations -/

/-- Count of trailing zero bits of a non-zero 32-bit value (`__builtin_ctz`). -/
def builtin_ctz (x : Nat) : Nat :=
  ((List.range 32).find? (fun i => x.testBit i)).getD 0

/-- The encoded keycode of modifier `modifier_index`:
`(HID_USAGE_KEY << 16) | (HID_USAGE_KEY_KEYBOARD_LEFTCONTROL + modifier_index)`
as a `uint32_t`. -/
def modifier_encoded (P : Platform) (modifier_index : Nat) : Nat :=
  ((P.HID_USAGE_KEY <<< 16) ||| (P.HID_USAGE_KEY_KEYBOARD_LEFTCONTROL + modifier_index)) % 2 ^ 32

/-- The call `raise_zmk_keycode_state_changed_from_encoded`: the event goes on
the bus and is delivered before the call returns. -/
def raise_zmk_keycode_state_changed_from_encoded (deliver : Deliver) (P : Platform)
    (encoded : Nat) (pressed : Bool) (timestamp : Int) (s : sticky_modifiers_state) :
    Option (sticky_modifiers_state × Trace) :=
  match deliver s (zmk_event_t.keycode_state_changed
      (zmk_keycode_state_changed_from_encoded P encoded pressed timestamp)) with
  | none => none
  | some (_, s1, tr) => some (s1, ⟨BusEvent.raised encoded pressed timestamp, s⟩ :: tr)

/-- The pair `copy_raised_zmk_keycode_state_changed` / `ZMK_EVENT_RELEASE`:
a copy of `ev` goes on the bus. -/
def release_copy (deliver : Deliver) (P : Platform) (ev : zmk_keycode_state_changed)
    (s : sticky_modifiers_state) : Option (sticky_modifiers_state × Trace) :=
  if P.release_reenters then
    match deliver s (zmk_event_t.keycode_state_changed ev) with
    | none => none
    | some (_, s1, tr) => some (s1, ⟨BusEvent.released ev, s⟩ :: tr)
  else
    some (s, [⟨BusEvent.released ev, s⟩])

/-- The `while` loop of `raise_modifiers`, with a bound on its iterations. -/
def raise_modifiers_loop (deliver : Deliver) (P : Platform) (pressed : Bool) (timestamp : Int) :
    Nat → Nat → sticky_modifiers_state → Option (sticky_modifiers_state × Trace)
  | 0, modifiers_to_raise, s => if modifiers_to_raise = 0 then some (s, []) else none
  | n + 1, modifiers_to_raise, s =>
    if modifiers_to_raise = 0 then some (s, [])
    else
      let modifier_index := builtin_ctz modifiers_to_raise
      let modifiers_to_raise1 := (modifiers_to_raise ^^^ (1 <<< modifier_index)) % 256
      let encoded := modifier_encoded P modifier_index
      match raise_zmk_keycode_state_changed_from_encoded deliver P encoded pressed timestamp s with
      | none => none
      | some (s1, tr1) =>
        match raise_modifiers_loop deliver P pressed timestamp n modifiers_to_raise1 s1 with
        | none => none
        | some (s2, tr2) => some (s2, tr1 ++ tr2)

/-- The function `raise_modifiers`: its `uint8_t` argument has at most eight
set bits and each iteration clears one. -/
def raise_modifiers (deliver : Deliver) (P : Platform) (modifiers_to_raise : Nat)
    (pressed : Bool) (timestamp : Int) (s : sticky_modifiers_state) :
    Option (sticky_modifiers_state × Trace) :=
  raise_modifiers_loop deliver P pressed timestamp 8 modifiers_to_raise s

/-- The listener `sticky_modifiers_keycode_state_changed_listener`; the first
argument bounds the depth of re-entry. -/
def sticky_modifiers_keycode_state_changed_listener (P : Platform) :
    Nat → sticky_modifiers_state → zmk_event_t →
      Option (zmk_ev_result × sticky_modifiers_state × Trace)
  | 0, _, _ => none
  | fuel + 1, s, eh =>
    match as_zmk_keycode_state_changed eh with
    | none => some (zmk_ev_result.ZMK_EV_EVENT_BUBBLE, s, [])
    | some ev =>
      if !ev.state then some (zmk_ev_result.ZMK_EV_EVENT_BUBBLE, s, [])
      else if s.modifiers_pressed ≠ 0 ∧ !s.normal_mode then
        let s1 := { s with normal_mode := true, modifiers_accumulated := 0 }
        match raise_modifiers (sticky_modifiers_keycode_state_changed_listener P fuel) P
            s1.modifiers_pressed true ev.timestamp s1 with
        | none => none
        | some (s2, tr) => some (zmk_ev_result.ZMK_EV_EVENT_BUBBLE, s2, tr)
      else if s.modifiers_accumulated ≠ 0 then
        let timestamp := ev.timestamp
        let modifiers_accumulated := s.modifiers_accumulated
        let s1 := { s with modifiers_accumulated := 0 }
        let deliver := sticky_modifiers_keycode_state_changed_listener P fuel
        match raise_modifiers deliver P modifiers_accumulated true timestamp s1 with
        | none => none
        | some (s2, tr1) =>
          match release_copy deliver P ev s2 with
          | none => none
          | some (s3, tr2) =>
            match raise_modifiers deliver P modifiers_accumulated false timestamp s3 with
            | none => none
            | some (s4, tr3) =>
              some (zmk_ev_result.ZMK_EV_EVENT_HANDLED, s4, tr1 ++ tr2 ++ tr3)
      else some (zmk_ev_result.ZMK_EV_EVENT_BUBBLE, s, [])

/-- The callback `on_sticky_modifiers_binding_pressed`. -/
def on_sticky_modifiers_binding_pressed (P : Platform) (fuel : Nat) (s : sticky_modifiers_state)
    (binding : zmk_behavior_binding) (event : zmk_behavior_binding_event) :
    Option (zmk_behavior_result × sticky_modifiers_state × Trace) :=
  let deliver := sticky_modifiers_keycode_state_changed_listener P fuel
  let modifier_index := (binding.param1 &&& 0xF) % 256
  let modifier_bit := (1 <<< modifier_index) % 256
  let s1 := { s with modifiers_pressed := (s.modifiers_pressed ||| modifier_bit) % 256 }
  if s1.normal_mode then
    match raise_zmk_keycode_state_changed_from_encoded deliver P binding.param1 true
        event.timestamp s1 with
    | none => none
    | some (s2, tr) => some (zmk_behavior_result.ZMK_BEHAVIOR_OPAQUE, s2, tr)
  else if s1.modifiers_accumulated &&& modifier_bit ≠ 0 then
    let s2 := { s1 with normal_mode := true, modifiers_accumulated := 0 }
    match raise_modifiers deliver P modifier_bit true event.timestamp s2 with
    | none => none
    | some (s3, tr1) =>
      match raise_modifiers deliver P modifier_bit false event.timestamp s3 with
      | none => none
      | some (s4, tr2) =>
        match raise_modifiers deliver P modifier_bit true event.timestamp s4 with
        | none => none
        | some (s5, tr3) =>
          some (zmk_behavior_result.ZMK_BEHAVIOR_OPAQUE, s5, tr1 ++ tr2 ++ tr3)
  else some (zmk_behavior_result.ZMK_BEHAVIOR_OPAQUE, s1, [])

/-- The callback `on_sticky_modifiers_binding_released`. -/
def on_sticky_modifiers_binding_released (P : Platform) (fuel : Nat) (s : sticky_modifiers_state)
    (binding : zmk_behavior_binding) (event : zmk_behavior_binding_event) :
    Option (zmk_behavior_result × sticky_modifiers_state × Trace) :=
  let deliver := sticky_modifiers_keycode_state_changed_listener P fuel
  let modifier_index := (binding.param1 &&& 0xF) % 256
  let modifier_bit := (1 <<< modifier_index) % 256
  let s1 := { s with modifiers_pressed := (s.modifiers_pressed ^^^ modifier_bit) % 256 }
  if s1.normal_mode then
    match raise_zmk_keycode_state_changed_from_encoded deliver P binding.param1 false
        event.timestamp s1 with
    | none => none
    | some (s2, tr) =>
      if s2.modifiers_pressed = 0 then
        some (zmk_behavior_result.ZMK_BEHAVIOR_OPAQUE,
          { s2 with normal_mode := false, modifiers_accumulated := 0 }, tr)
      else some (zmk_behavior_result.ZMK_BEHAVIOR_OPAQUE, s2, tr)
  else
    some (zmk_behavior_result.ZMK_BEHAVIOR_OPAQUE,
      { s1 with modifiers_accumulated := (s1.modifiers_accumulated ||| modifier_bit) % 256 }, [])


/-- A concrete platform for evaluating the model: keyboard usage page 0x07,
left control at usage id 0xE0, released copies not handed back. -/
def sample_platform : Platform :=
  { HID_USAGE_KEY := 0x07
    HID_USAGE_KEY_KEYBOARD_LEFTCONTROL := 0xE0
    decode_encoded := fun e => ((e >>> 16) &&& 0xFF, e &&& 0xFFFF, 0, 0)
    release_reenters := false }

/-- The indices visited by the loop of `raise_modifiers`, in loop order. -/
def ctz_indices : Nat → Nat → Option (List Nat)
  | 0, m => if m = 0 then some [] else none
  | n + 1, m =>
    if m = 0 then some []
    else (ctz_indices n ((m ^^^ (1 <<< builtin_ctz m)) % 256)).map (fun l => builtin_ctz m :: l)

/-- The members of an 8-bit set, in increasing index order. -/
def set_bits (m : Nat) : List Nat := (List.range 8).filter (fun i => m.testBit i)

/-- One event per listed modifier index, all observed in state `s`. -/
def modifier_emissions (P : Platform) (pressed : Bool) (timestamp : Int)
    (s : sticky_modifiers_state) (l : List Nat) : Trace :=
  l.map (fun i => ⟨BusEvent.raised (modifier_encoded P i) pressed timestamp, s⟩)

/-- One event per listed modifier index. -/
def modifier_events (P : Platform) (pressed : Bool) (timestamp : Int) (l : List Nat) :
    List BusEvent :=
  l.map (fun i => BusEvent.raised (modifier_encoded P i) pressed timestamp)

/-- A state in which the listener has nothing to do: nothing is accumulated,
and no sticky key is held outside normal mode. -/
def quiet (s : sticky_modifiers_state) : Prop :=
  s.modifiers_accumulated = 0 ∧ (s.modifiers_pressed = 0 ∨ s.normal_mode = true)

/-- The bit `1 << (param1 & 0xF)` of a binding, as stored in a `uint8_t`. -/
def modifier_bit_of (binding : zmk_behavior_binding) : Nat :=
  (1 <<< ((binding.param1 &&& 0xF) % 256)) % 256

/-- One call into the engine from the firmware. -/
inductive Call where
  | binding_pressed (binding : zmk_behavior_binding) (event : zmk_behavior_binding_event)
  | binding_released (binding : zmk_behavior_binding) (event : zmk_behavior_binding_event)
  | listener (eh : zmk_event_t)
deriving DecidableEq, Repr

/-- What a call returns to its caller. -/
inductive Outcome where
  | behavior (r : zmk_behavior_result)
  | disposition (r : zmk_ev_result)
deriving DecidableEq, Repr

/-- Dispatch of one call to the entry point it names. -/
def call (P : Platform) (fuel : Nat) (s : sticky_modifiers_state) :
    Call → Option (Outcome × sticky_modifiers_state × Trace)
  | Call.binding_pressed binding event =>
    match on_sticky_modifiers_binding_pressed P fuel s binding event with
    | none => none
    | some (r, s1, tr) => some (Outcome.behavior r, s1, tr)
  | Call.binding_released binding event =>
    match on_sticky_modifiers_binding_released P fuel s binding event with
    | none => none
    | some (r, s1, tr) => some (Outcome.behavior r, s1, tr)
  | Call.listener eh =>
    match sticky_modifiers_keycode_state_changed_listener P fuel s eh with
    | none => none
    | some (r, s1, tr) => some (Outcome.disposition r, s1, tr)

/-- A sequence of calls, one after the other, with the trace of the whole. -/
def run (P : Platform) (fuel : Nat) :
    sticky_modifiers_state → List Call → Option (sticky_modifiers_state × Trace)
  | s, [] => some (s, [])
  | s, c :: cs =>
    match call P fuel s c with
    | none => none
    | some (_, s1, tr1) =>
      match run P fuel s1 cs with
      | none => none
      | some (s2, tr2) => some (s2, tr1 ++ tr2)

/-- The states the engine can be in: the initial state, the state a call
returns in, and the state at the moment of each emission of a call (where the
listener is re-entered). -/
inductive Reachable (P : Platform) : sticky_modifiers_state → Prop where
  | init : Reachable P initial_state
  | after (s : sticky_modifiers_state) (c : Call) (fuel : Nat) (r : Outcome)
      (s1 : sticky_modifiers_state) (tr : Trace) :
      Reachable P s → call P fuel s c = some (r, s1, tr) → Reachable P s1
  | during (s : sticky_modifiers_state) (c : Call) (fuel : Nat) (r : Outcome)
      (s1 : sticky_modifiers_state) (tr : Trace) (e : Emission) :
      Reachable P s → call P fuel s c = some (r, s1, tr) → e ∈ tr → Reachable P e.at_state

/-- The invariant of the reachable states: both sets fit eight bits, and
nothing is accumulated in normal mode. -/
def Inv (s : sticky_modifiers_state) : Prop :=
  valid s ∧ (s.normal_mode = true → s.modifiers_accumulated = 0)

/-- A delivery that answers wherever another one does, with the same answer. -/
def Deliver.refines (d2 d1 : Deliver) : Prop :=
  ∀ s eh x, d1 s eh = some x → d2 s eh = some x

/-- What a caller and the bus see of a result: the return value, the state
left behind and the events emitted, in order. -/
def observed {α : Type} (x : Option (α × sticky_modifiers_state × Trace)) :
    Option (α × sticky_modifiers_state × List BusEvent) :=
  x.map (fun y => (y.1, y.2.1, events y.2.2))

/-- A sticky binding for modifier `i` on the sample platform. -/
def sample_binding (i : Nat) : zmk_behavior_binding :=
  { param1 := 0x0700E0 + i, param2 := 0 }

/-- A binding event at time `t`. -/
def sample_binding_event (t : Int) : zmk_behavior_binding_event :=
  { layer := 0, position := 0, timestamp := t }

/-- A press of the key with usage id `k` on the keyboard page at time `t`. -/
def sample_key (k : Nat) (t : Int) : zmk_keycode_state_changed :=
  { usage_page := 7, keycode := k, implicit_modifiers := 0, explicit_modifiers := 0,
    state := true, timestamp := t }

/-- The final state and the events emitted by a sequence of calls. -/
def run_observed (P : Platform) (fuel : Nat) (s : sticky_modifiers_state) (cs : List Call) :
    Option (sticky_modifiers_state × List BusEvent) :=
  (run P fuel s cs).map (fun x => (x.1, events x.2))

/-- The bus event the listener receives when an emission is handed back. -/
def delivered (P : Platform) : BusEvent → zmk_event_t
  | BusEvent.raised encoded pressed timestamp =>
    zmk_event_t.keycode_state_changed
      (zmk_keycode_state_changed_from_encoded P encoded pressed timestamp)
  | BusEvent.released ev => zmk_event_t.keycode_state_changed ev

/-- A bus with no subscriber that reacts: every event bubbles, the state is
untouched and nothing is emitted in return. -/
def null_deliver : Deliver :=
  fun s _ => some (zmk_ev_result.ZMK_EV_EVENT_BUBBLE, s, [])

/-- The modifier index the callbacks compute from a binding: `param1 & 0xF`
as a `uint8_t`. -/
def binding_index (b : zmk_behavior_binding) : Nat := (b.param1 &&& 0xF) % 256

/-- The state a call leaves behind in a state satisfying `Inv`, branch by
branch. -/
def step_state (s : sticky_modifiers_state) : Call → sticky_modifiers_state
  | Call.binding_pressed b _ =>
    if s.normal_mode = true then
      { s with modifiers_pressed := (s.modifiers_pressed ||| modifier_bit_of b) % 256 }
    else if s.modifiers_accumulated &&& modifier_bit_of b ≠ 0 then
      { modifiers_pressed := (s.modifiers_pressed ||| modifier_bit_of b) % 256
        modifiers_accumulated := 0
        normal_mode := true }
    else { s with modifiers_pressed := (s.modifiers_pressed ||| modifier_bit_of b) % 256 }
  | Call.binding_released b _ =>
    if s.normal_mode = true then
      if (s.modifiers_pressed ^^^ modifier_bit_of b) % 256 = 0 then
        { modifiers_pressed := (s.modifiers_pressed ^^^ modifier_bit_of b) % 256
          modifiers_accumulated := 0
          normal_mode := false }
      else { s with modifiers_pressed := (s.modifiers_pressed ^^^ modifier_bit_of b) % 256 }
    else
      { modifiers_pressed := (s.modifiers_pressed ^^^ modifier_bit_of b) % 256
        modifiers_accumulated := (s.modifiers_accumulated ||| modifier_bit_of b) % 256
        normal_mode := false }
  | Call.listener zmk_event_t.other => s
  | Call.listener (zmk_event_t.keycode_state_changed ev) =>
    if ev.state = false then s
    else if s.modifiers_pressed ≠ 0 ∧ s.normal_mode = false then
      { s with normal_mode := true, modifiers_accumulated := 0 }
    else if s.modifiers_accumulated ≠ 0 then { s with modifiers_accumulated := 0 }
    else s

/-- The events a call emits in a state satisfying `Inv`, branch by branch. -/
def step_events (P : Platform) (s : sticky_modifiers_state) : Call → List BusEvent
  | Call.binding_pressed b e =>
    if s.normal_mode = true then [BusEvent.raised b.param1 true e.timestamp]
    else if s.modifiers_accumulated &&& modifier_bit_of b ≠ 0 then
      modifier_events P true e.timestamp (set_bits (modifier_bit_of b))
        ++ modifier_events P false e.timestamp (set_bits (modifier_bit_of b))
        ++ modifier_events P true e.timestamp (set_bits (modifier_bit_of b))
    else []
  | Call.binding_released b e =>
    if s.normal_mode = true then [BusEvent.raised b.param1 false e.timestamp] else []
  | Call.listener zmk_event_t.other => []
  | Call.listener (zmk_event_t.keycode_state_changed ev) =>
    if ev.state = false then []
    else if s.modifiers_pressed ≠ 0 ∧ s.normal_mode = false then
      modifier_events P true ev.timestamp (set_bits s.modifiers_pressed)
    else if s.modifiers_accumulated ≠ 0 then
      modifier_events P true ev.timestamp (set_bits s.modifiers_accumulated)
        ++ [BusEvent.released ev]
        ++ modifier_events P false ev.timestamp (set_bits s.modifiers_accumulated)
    else []

/-- The modifier indices with a sticky key held after a sequence of calls,
starting from the held set `H`. -/
def held_after (H : Nat → Bool) : List Call → Nat → Bool
  | [] => H
  | Call.binding_pressed b _ :: cs => held_after (Function.update H (binding_index b) true) cs
  | Call.binding_released b _ :: cs => held_after (Function.update H (binding_index b) false) cs
  | Call.listener _ :: cs => held_after H cs

/-- Presses and releases of each modifier index alternate, starting from the
held set `H`: a press comes only for an index not held, a release only for
an index that is held. -/
def alternating (H : Nat → Bool) : List Call → Prop
  | [] => True
  | Call.binding_pressed b _ :: cs =>
    H (binding_index b) = false ∧ alternating (Function.update H (binding_index b) true) cs
  | Call.binding_released b _ :: cs =>
    H (binding_index b) = true ∧ alternating (Function.update H (binding_index b) false) cs
  | Call.listener _ :: cs => alternating H cs

/-- The state after a sequence of calls, by `step_state`. -/
def run_state (s : sticky_modifiers_state) : List Call → sticky_modifiers_state
  | [] => s
  | c :: cs => run_state (step_state s c) cs

/-- The events of a sequence of calls, by `step_events`. -/
def run_events (P : Platform) (s : sticky_modifiers_state) : List Call → List BusEvent
  | [] => []
  | c :: cs => step_events P s c ++ run_events P (step_state s c) cs

/-- The physical keys held after a sequence of binding calls, each as its
key position with the modifier index of its binding, starting from `K`. -/
def keys_held_after (K : List (Nat × Nat)) : List Call → List (Nat × Nat)
  | [] => K
  | Call.binding_pressed b e :: cs =>
    keys_held_after ((e.position, binding_index b) :: K) cs
  | Call.binding_released _ e :: cs =>
    keys_held_after (K.filter (fun k => k.1 != e.position)) cs
  | Call.listener _ :: cs => keys_held_after K cs

/-- Every physical key alternates press and release, starting from the held
keys `K`: a key is pressed only when up and released only when down, with
the binding it was pressed with. -/
def keys_alternate (K : List (Nat × Nat)) : List Call → Bool
  | [] => true
  | Call.binding_pressed b e :: cs =>
    !(K.any (fun k => k.1 == e.position))
      && keys_alternate ((e.position, binding_index b) :: K) cs
  | Call.binding_released b e :: cs =>
    K.contains (e.position, binding_index b)
      && keys_alternate (K.filter (fun k => k.1 != e.position)) cs
  | Call.listener _ :: cs => keys_alternate K cs

/-- A press or release of the key at `position`, at time `t`. -/
def sample_key_event (position : Nat) (t : Int) : zmk_behavior_binding_event :=
  { layer := 0, position := position, timestamp := t }

/-- The effect of one emitted event on which modifiers are down on the bus:
an event raised with the encoded keycode of modifier `i` puts `i` down or up;
a released copy of a received event is not one of the engine's modifier
events. -/
def apply_event (P : Platform) (D : Nat → Bool) : BusEvent → Nat → Bool
  | BusEvent.raised encoded pressed _ =>
    fun i => if modifier_encoded P i = encoded then pressed else D i
  | BusEvent.released _ => D

/-- The modifiers whose most recent engine-emitted event is a press, after
the events `evs`, starting from `D`. -/
def down_after (P : Platform) (D : Nat → Bool) (evs : List BusEvent) : Nat → Bool :=
  evs.foldl (apply_event P) D

/-- A binding for one of the eight modifiers whose `param1` is that
modifier's own encoded keycode. -/
def binding_encodes (P : Platform) (b : zmk_behavior_binding) : Prop :=
  b.param1 &&& 0xF < 8 ∧ b.param1 = modifier_encoded P (b.param1 &&& 0xF)

/-- Every binding call of the sequence uses such a binding. -/
def calls_encoded (P : Platform) : List Call → Prop
  | [] => True
  | Call.binding_pressed b _ :: cs => binding_encodes P b ∧ calls_encoded P cs
  | Call.binding_released b _ :: cs => binding_encodes P b ∧ calls_encoded P cs
  | Call.listener _ :: cs => calls_encoded P cs

/-! ## Lemmas on the loop and on re-entry -/

set_option maxRecDepth 100000 in
theorem ctz_indices_eq_set_bits : ∀ m, m < 256 → ctz_indices 8 m = some (set_bits m) := by
  decide

theorem events_modifier_emissions (P : Platform) (pressed : Bool) (timestamp : Int)
    (s : sticky_modifiers_state) (l : List Nat) :
    events (modifier_emissions P pressed timestamp s l) = modifier_events P pressed timestamp l := by
  simp [events, modifier_emissions, modifier_events, List.map_map, Function.comp_def]

theorem events_append (a b : Trace) : events (a ++ b) = events a ++ events b := by
  simp [events]

theorem listener_other (P : Platform) (n : Nat) (s : sticky_modifiers_state) :
    sticky_modifiers_keycode_state_changed_listener P (n + 1) s zmk_event_t.other
      = some (zmk_ev_result.ZMK_EV_EVENT_BUBBLE, s, []) := by
  simp [sticky_modifiers_keycode_state_changed_listener, as_zmk_keycode_state_changed]

theorem listener_release_event (P : Platform) (n : Nat) (s : sticky_modifiers_state)
    (ev : zmk_keycode_state_changed) (h : ev.state = false) :
    sticky_modifiers_keycode_state_changed_listener P (n + 1) s
        (zmk_event_t.keycode_state_changed ev)
      = some (zmk_ev_result.ZMK_EV_EVENT_BUBBLE, s, []) := by
  simp [sticky_modifiers_keycode_state_changed_listener, as_zmk_keycode_state_changed, h]

theorem listener_quiet (P : Platform) (n : Nat) (s : sticky_modifiers_state) (eh : zmk_event_t)
    (h : quiet s) :
    sticky_modifiers_keycode_state_changed_listener P (n + 1) s eh
      = some (zmk_ev_result.ZMK_EV_EVENT_BUBBLE, s, []) := by
  obtain ⟨hacc, hp⟩ := h
  cases eh with
  | other => exact listener_other P n s
  | keycode_state_changed ev =>
    rcases hp with hp | hp <;>
      simp [sticky_modifiers_keycode_state_changed_listener, as_zmk_keycode_state_changed,
        hacc, hp]

theorem raise_quiet (P : Platform) (n : Nat) (s : sticky_modifiers_state) (encoded : Nat)
    (pressed : Bool) (timestamp : Int) (h : quiet s) :
    raise_zmk_keycode_state_changed_from_encoded
        (sticky_modifiers_keycode_state_changed_listener P (n + 1)) P encoded pressed timestamp s
      = some (s, [⟨BusEvent.raised encoded pressed timestamp, s⟩]) := by
  simp [raise_zmk_keycode_state_changed_from_encoded, listener_quiet P n s _ h]

theorem raise_release_event (P : Platform) (n : Nat) (s : sticky_modifiers_state) (encoded : Nat)
    (timestamp : Int) :
    raise_zmk_keycode_state_changed_from_encoded
        (sticky_modifiers_keycode_state_changed_listener P (n + 1)) P encoded false timestamp s
      = some (s, [⟨BusEvent.raised encoded false timestamp, s⟩]) := by
  simp [raise_zmk_keycode_state_changed_from_encoded,
    listener_release_event P n s _ (rfl : (zmk_keycode_state_changed_from_encoded P encoded false
      timestamp).state = false)]

theorem release_copy_quiet (P : Platform) (n : Nat) (s : sticky_modifiers_state)
    (ev : zmk_keycode_state_changed) (h : quiet s) :
    release_copy (sticky_modifiers_keycode_state_changed_listener P (n + 1)) P ev s
      = some (s, [⟨BusEvent.released ev, s⟩]) := by
  unfold release_copy
  split
  · simp [listener_quiet P n s _ h]
  · rfl

theorem raise_modifiers_loop_still (deliver : Deliver) (P : Platform) (pressed : Bool)
    (timestamp : Int) (s : sticky_modifiers_state)
    (h : ∀ encoded, raise_zmk_keycode_state_changed_from_encoded deliver P encoded pressed
      timestamp s = some (s, [⟨BusEvent.raised encoded pressed timestamp, s⟩])) :
    ∀ n m, raise_modifiers_loop deliver P pressed timestamp n m s
      = (ctz_indices n m).map (fun l => (s, modifier_emissions P pressed timestamp s l)) := by
  intro n
  induction n with
  | zero =>
    intro m
    by_cases hm : m = 0 <;> simp [raise_modifiers_loop, ctz_indices, hm, modifier_emissions]
  | succ k ih =>
    intro m
    by_cases hm : m = 0
    · simp [raise_modifiers_loop, ctz_indices, hm, modifier_emissions]
    · simp only [raise_modifiers_loop, ctz_indices, hm, if_false, h, ih]
      cases ctz_indices k ((m ^^^ (1 <<< builtin_ctz m)) % 256) <;>
        simp [modifier_emissions]

theorem raise_modifiers_quiet (P : Platform) (n : Nat) (s : sticky_modifiers_state) (m : Nat)
    (pressed : Bool) (timestamp : Int) (hm : m < 256) (h : quiet s) :
    raise_modifiers (sticky_modifiers_keycode_state_changed_listener P (n + 1)) P m pressed
        timestamp s
      = some (s, modifier_emissions P pressed timestamp s (set_bits m)) := by
  unfold raise_modifiers
  rw [raise_modifiers_loop_still _ P pressed timestamp s
    (fun e => raise_quiet P n s e pressed timestamp h), ctz_indices_eq_set_bits m hm]
  rfl

theorem raise_modifiers_release_events (P : Platform) (n : Nat) (s : sticky_modifiers_state)
    (m : Nat) (timestamp : Int) (hm : m < 256) :
    raise_modifiers (sticky_modifiers_keycode_state_changed_listener P (n + 1)) P m false
        timestamp s
      = some (s, modifier_emissions P false timestamp s (set_bits m)) := by
  unfold raise_modifiers
  rw [raise_modifiers_loop_still _ P false timestamp s
    (fun e => raise_release_event P n s e timestamp), ctz_indices_eq_set_bits m hm]
  rfl

/-! ## Closed forms of the three entry points -/

theorem listener_pressed_unfold (P : Platform) (n : Nat) (s : sticky_modifiers_state)
    (ev : zmk_keycode_state_changed) (hs : ev.state = true) :
    sticky_modifiers_keycode_state_changed_listener P (n + 1) s
        (zmk_event_t.keycode_state_changed ev)
      = if s.modifiers_pressed ≠ 0 ∧ s.normal_mode = false then
          match raise_modifiers (sticky_modifiers_keycode_state_changed_listener P n) P
              s.modifiers_pressed true ev.timestamp
              { s with normal_mode := true, modifiers_accumulated := 0 } with
          | none => none
          | some (s2, tr) => some (zmk_ev_result.ZMK_EV_EVENT_BUBBLE, s2, tr)
        else if s.modifiers_accumulated ≠ 0 then
          match raise_modifiers (sticky_modifiers_keycode_state_changed_listener P n) P
              s.modifiers_accumulated true ev.timestamp { s with modifiers_accumulated := 0 } with
          | none => none
          | some (s2, tr1) =>
            match release_copy (sticky_modifiers_keycode_state_changed_listener P n) P ev s2 with
            | none => none
            | some (s3, tr2) =>
              match raise_modifiers (sticky_modifiers_keycode_state_changed_listener P n) P
                  s.modifiers_accumulated false ev.timestamp s3 with
              | none => none
              | some (s4, tr3) =>
                some (zmk_ev_result.ZMK_EV_EVENT_HANDLED, s4, tr1 ++ tr2 ++ tr3)
        else some (zmk_ev_result.ZMK_EV_EVENT_BUBBLE, s, []) := by
  simp [sticky_modifiers_keycode_state_changed_listener, as_zmk_keycode_state_changed, hs]

theorem listener_enter_normal (P : Platform) (n : Nat) (s : sticky_modifiers_state)
    (ev : zmk_keycode_state_changed) (hp : s.modifiers_pressed ≠ 0)
    (hlt : s.modifiers_pressed < 256) (hn : s.normal_mode = false) (hs : ev.state = true) :
    sticky_modifiers_keycode_state_changed_listener P (n + 2) s
        (zmk_event_t.keycode_state_changed ev)
      = some (zmk_ev_result.ZMK_EV_EVENT_BUBBLE,
          { s with normal_mode := true, modifiers_accumulated := 0 },
          modifier_emissions P true ev.timestamp
            { s with normal_mode := true, modifiers_accumulated := 0 }
            (set_bits s.modifiers_pressed)) := by
  have hq : quiet { s with normal_mode := true, modifiers_accumulated := 0 } :=
    ⟨rfl, Or.inr rfl⟩
  rw [listener_pressed_unfold P (n + 1) s ev hs, if_pos ⟨hp, hn⟩,
    raise_modifiers_quiet P n _ s.modifiers_pressed true ev.timestamp hlt hq]

theorem listener_trigger (P : Platform) (n : Nat) (s : sticky_modifiers_state)
    (ev : zmk_keycode_state_changed) (hq : s.modifiers_pressed = 0 ∨ s.normal_mode = true)
    (hacc : s.modifiers_accumulated ≠ 0) (hlt : s.modifiers_accumulated < 256)
    (hs : ev.state = true) :
    sticky_modifiers_keycode_state_changed_listener P (n + 2) s
        (zmk_event_t.keycode_state_changed ev)
      = some (zmk_ev_result.ZMK_EV_EVENT_HANDLED,
          { s with modifiers_accumulated := 0 },
          modifier_emissions P true ev.timestamp { s with modifiers_accumulated := 0 }
              (set_bits s.modifiers_accumulated)
            ++ [⟨BusEvent.released ev, { s with modifiers_accumulated := 0 }⟩]
            ++ modifier_emissions P false ev.timestamp { s with modifiers_accumulated := 0 }
              (set_bits s.modifiers_accumulated)) := by
  have hq1 : quiet { s with modifiers_accumulated := 0 } := ⟨rfl, hq⟩
  have hbr : ¬ (s.modifiers_pressed ≠ 0 ∧ s.normal_mode = false) := by
    rcases hq with h | h <;> simp [h]
  rw [listener_pressed_unfold P (n + 1) s ev hs, if_neg hbr, if_pos hacc]
  simp only [raise_modifiers_quiet P n _ s.modifiers_accumulated _ ev.timestamp hlt hq1,
    release_copy_quiet P n _ ev hq1]

theorem pressed_sticky_silent (P : Platform) (fuel : Nat) (s : sticky_modifiers_state)
    (binding : zmk_behavior_binding) (event : zmk_behavior_binding_event)
    (hn : s.normal_mode = false) (hacc : s.modifiers_accumulated &&& modifier_bit_of binding = 0) :
    on_sticky_modifiers_binding_pressed P fuel s binding event
      = some (zmk_behavior_result.ZMK_BEHAVIOR_OPAQUE,
          { s with modifiers_pressed := (s.modifiers_pressed ||| modifier_bit_of binding) % 256 },
          []) := by
  obtain ⟨p, a, m⟩ := s
  simp only at hn hacc
  subst hn
  unfold modifier_bit_of at *
  simp [on_sticky_modifiers_binding_pressed, hacc]

theorem pressed_double_tap (P : Platform) (n : Nat) (s : sticky_modifiers_state)
    (binding : zmk_behavior_binding) (event : zmk_behavior_binding_event)
    (hn : s.normal_mode = false) (hacc : s.modifiers_accumulated &&& modifier_bit_of binding ≠ 0) :
    on_sticky_modifiers_binding_pressed P (n + 1) s binding event
      = some (zmk_behavior_result.ZMK_BEHAVIOR_OPAQUE,
          { modifiers_pressed := (s.modifiers_pressed ||| modifier_bit_of binding) % 256
            modifiers_accumulated := 0
            normal_mode := true },
          modifier_emissions P true event.timestamp
              { modifiers_pressed := (s.modifiers_pressed ||| modifier_bit_of binding) % 256
                modifiers_accumulated := 0
                normal_mode := true } (set_bits (modifier_bit_of binding))
            ++ modifier_emissions P false event.timestamp
              { modifiers_pressed := (s.modifiers_pressed ||| modifier_bit_of binding) % 256
                modifiers_accumulated := 0
                normal_mode := true } (set_bits (modifier_bit_of binding))
            ++ modifier_emissions P true event.timestamp
              { modifiers_pressed := (s.modifiers_pressed ||| modifier_bit_of binding) % 256
                modifiers_accumulated := 0
                normal_mode := true } (set_bits (modifier_bit_of binding))) := by
  obtain ⟨p, a, m⟩ := s
  simp only at hn hacc
  subst hn
  have hb : modifier_bit_of binding < 256 := Nat.mod_lt _ (by norm_num)
  have hq : quiet { modifiers_pressed := (p ||| modifier_bit_of binding) % 256
                    modifiers_accumulated := 0
                    normal_mode := true } := ⟨rfl, Or.inr rfl⟩
  have h1 := raise_modifiers_quiet P n _ (modifier_bit_of binding) true event.timestamp hb hq
  have h2 := raise_modifiers_quiet P n _ (modifier_bit_of binding) false event.timestamp hb hq
  unfold modifier_bit_of at *
  simp only [on_sticky_modifiers_binding_pressed, hacc, ne_eq, not_false_eq_true, if_true,
    if_false, Bool.false_eq_true, h1, h2]

theorem pressed_normal (P : Platform) (n : Nat) (s : sticky_modifiers_state)
    (binding : zmk_behavior_binding) (event : zmk_behavior_binding_event)
    (hn : s.normal_mode = true) (hacc : s.modifiers_accumulated = 0) :
    on_sticky_modifiers_binding_pressed P (n + 1) s binding event
      = some (zmk_behavior_result.ZMK_BEHAVIOR_OPAQUE,
          { s with modifiers_pressed := (s.modifiers_pressed ||| modifier_bit_of binding) % 256 },
          [⟨BusEvent.raised binding.param1 true event.timestamp,
            { s with modifiers_pressed :=
                (s.modifiers_pressed ||| modifier_bit_of binding) % 256 }⟩]) := by
  obtain ⟨p, a, m⟩ := s
  simp only at hn hacc
  subst hn hacc
  have hq : quiet { modifiers_pressed := (p ||| modifier_bit_of binding) % 256
                    modifiers_accumulated := 0
                    normal_mode := true } := ⟨rfl, Or.inr rfl⟩
  have h1 := raise_quiet P n _ binding.param1 true event.timestamp hq
  unfold modifier_bit_of at *
  simp only [on_sticky_modifiers_binding_pressed, if_true, h1]

theorem released_normal (P : Platform) (n : Nat) (s : sticky_modifiers_state)
    (binding : zmk_behavior_binding) (event : zmk_behavior_binding_event)
    (hn : s.normal_mode = true) :
    on_sticky_modifiers_binding_released P (n + 1) s binding event
      = some (zmk_behavior_result.ZMK_BEHAVIOR_OPAQUE,
          (if (s.modifiers_pressed ^^^ modifier_bit_of binding) % 256 = 0 then
            { modifiers_pressed := (s.modifiers_pressed ^^^ modifier_bit_of binding) % 256
              modifiers_accumulated := 0
              normal_mode := false }
          else
            { s with modifiers_pressed :=
                (s.modifiers_pressed ^^^ modifier_bit_of binding) % 256 }),
          [⟨BusEvent.raised binding.param1 false event.timestamp,
            { s with modifiers_pressed :=
                (s.modifiers_pressed ^^^ modifier_bit_of binding) % 256 }⟩]) := by
  obtain ⟨p, a, m⟩ := s
  simp only at hn
  subst hn
  have h1 := raise_release_event P n { modifiers_pressed := (p ^^^ modifier_bit_of binding) % 256
                                       modifiers_accumulated := a
                                       normal_mode := true } binding.param1 event.timestamp
  unfold modifier_bit_of at *
  simp only [on_sticky_modifiers_binding_released, if_true, h1]
  split <;> rfl

theorem released_sticky (P : Platform) (fuel : Nat) (s : sticky_modifiers_state)
    (binding : zmk_behavior_binding) (event : zmk_behavior_binding_event)
    (hn : s.normal_mode = false) :
    on_sticky_modifiers_binding_released P fuel s binding event
      = some (zmk_behavior_result.ZMK_BEHAVIOR_OPAQUE,
          { modifiers_pressed := (s.modifiers_pressed ^^^ modifier_bit_of binding) % 256
            modifiers_accumulated := (s.modifiers_accumulated ||| modifier_bit_of binding) % 256
            normal_mode := false }, []) := by
  obtain ⟨p, a, m⟩ := s
  simp only at hn
  subst hn
  unfold modifier_bit_of
  simp [on_sticky_modifiers_binding_released]

/-! ## More fuel never changes an answer -/

theorem raise_extends (d1 d2 : Deliver) (h : Deliver.refines d2 d1) (P : Platform)
    (encoded : Nat) (pressed : Bool) (timestamp : Int) (s : sticky_modifiers_state)
    (x : sticky_modifiers_state × Trace)
    (hx : raise_zmk_keycode_state_changed_from_encoded d1 P encoded pressed timestamp s = some x) :
    raise_zmk_keycode_state_changed_from_encoded d2 P encoded pressed timestamp s = some x := by
  unfold raise_zmk_keycode_state_changed_from_encoded at hx ⊢
  cases hd : d1 s (zmk_event_t.keycode_state_changed
      (zmk_keycode_state_changed_from_encoded P encoded pressed timestamp)) with
  | none => simp [hd] at hx
  | some y => rw [hd] at hx; rw [h _ _ _ hd]; exact hx

theorem release_copy_extends (d1 d2 : Deliver) (h : Deliver.refines d2 d1) (P : Platform)
    (ev : zmk_keycode_state_changed) (s : sticky_modifiers_state)
    (x : sticky_modifiers_state × Trace) (hx : release_copy d1 P ev s = some x) :
    release_copy d2 P ev s = some x := by
  unfold release_copy at hx ⊢
  by_cases hr : P.release_reenters = true
  · rw [if_pos hr] at hx ⊢
    cases hd : d1 s (zmk_event_t.keycode_state_changed ev) with
    | none => simp [hd] at hx
    | some y => rw [hd] at hx; rw [h _ _ _ hd]; exact hx
  · rw [if_neg hr] at hx ⊢
    exact hx

theorem raise_modifiers_loop_extends (d1 d2 : Deliver) (h : Deliver.refines d2 d1) (P : Platform)
    (pressed : Bool) (timestamp : Int) :
    ∀ n m s x, raise_modifiers_loop d1 P pressed timestamp n m s = some x →
      raise_modifiers_loop d2 P pressed timestamp n m s = some x := by
  intro n
  induction n with
  | zero => intro m s x hx; simpa [raise_modifiers_loop] using hx
  | succ k ih =>
    intro m s x hx
    by_cases hm : m = 0
    · simpa [raise_modifiers_loop, hm] using hx
    · simp only [raise_modifiers_loop, hm, if_false] at hx ⊢
      cases h1 : raise_zmk_keycode_state_changed_from_encoded d1 P
          (modifier_encoded P (builtin_ctz m)) pressed timestamp s with
      | none => simp [h1] at hx
      | some y =>
        obtain ⟨s1, tr1⟩ := y
        rw [h1] at hx
        rw [raise_extends d1 d2 h P _ pressed timestamp s _ h1]
        simp only at hx ⊢
        cases h2 : raise_modifiers_loop d1 P pressed timestamp k
            ((m ^^^ (1 <<< builtin_ctz m)) % 256) s1 with
        | none => simp [h2] at hx
        | some z => rw [h2] at hx; rw [ih _ _ _ h2]; exact hx

theorem raise_modifiers_extends (d1 d2 : Deliver) (h : Deliver.refines d2 d1) (P : Platform)
    (m : Nat) (pressed : Bool) (timestamp : Int) (s : sticky_modifiers_state)
    (x : sticky_modifiers_state × Trace) (hx : raise_modifiers d1 P m pressed timestamp s = some x) :
    raise_modifiers d2 P m pressed timestamp s = some x :=
  raise_modifiers_loop_extends d1 d2 h P pressed timestamp 8 m s x hx

theorem listener_fuel_succ (P : Platform) :
    ∀ n, Deliver.refines (sticky_modifiers_keycode_state_changed_listener P (n + 1))
      (sticky_modifiers_keycode_state_changed_listener P n) := by
  intro n
  induction n with
  | zero => intro s eh x hx; simp [sticky_modifiers_keycode_state_changed_listener] at hx
  | succ k ih =>
    intro s eh x hx
    cases eh with
    | other => rw [listener_other] at hx ⊢; exact hx
    | keycode_state_changed ev =>
      cases hs : ev.state with
      | false => rw [listener_release_event P _ s ev hs] at hx ⊢; exact hx
      | true =>
        rw [listener_pressed_unfold P _ s ev hs] at hx ⊢
        by_cases h1 : s.modifiers_pressed ≠ 0 ∧ s.normal_mode = false
        · rw [if_pos h1] at hx ⊢
          cases hr : raise_modifiers (sticky_modifiers_keycode_state_changed_listener P k) P
              s.modifiers_pressed true ev.timestamp
              { s with normal_mode := true, modifiers_accumulated := 0 } with
          | none => simp [hr] at hx
          | some y => rw [hr] at hx; rw [raise_modifiers_extends _ _ ih P _ _ _ _ _ hr]; exact hx
        · rw [if_neg h1] at hx ⊢
          by_cases h2 : s.modifiers_accumulated ≠ 0
          · rw [if_pos h2] at hx ⊢
            cases hr1 : raise_modifiers (sticky_modifiers_keycode_state_changed_listener P k) P
                s.modifiers_accumulated true ev.timestamp { s with modifiers_accumulated := 0 } with
            | none => simp [hr1] at hx
            | some y1 =>
              obtain ⟨s2, tr1⟩ := y1
              rw [hr1] at hx
              rw [raise_modifiers_extends _ _ ih P _ _ _ _ _ hr1]
              simp only at hx ⊢
              cases hr2 : release_copy (sticky_modifiers_keycode_state_changed_listener P k) P
                  ev s2 with
              | none => simp [hr2] at hx
              | some y2 =>
                obtain ⟨s3, tr2⟩ := y2
                rw [hr2] at hx
                rw [release_copy_extends _ _ ih P _ _ _ hr2]
                simp only at hx ⊢
                cases hr3 : raise_modifiers (sticky_modifiers_keycode_state_changed_listener P k)
                    P s.modifiers_accumulated false ev.timestamp s3 with
                | none => simp [hr3] at hx
                | some y3 =>
                  rw [hr3] at hx
                  rw [raise_modifiers_extends _ _ ih P _ _ _ _ _ hr3]
                  exact hx
          · rw [if_neg h2] at hx ⊢
            exact hx

theorem listener_fuel_add (P : Platform) (n k : Nat) :
    Deliver.refines (sticky_modifiers_keycode_state_changed_listener P (n + k))
      (sticky_modifiers_keycode_state_changed_listener P n) := by
  induction k with
  | zero => intro s eh x hx; exact hx
  | succ j ih => intro s eh x hx; exact listener_fuel_succ P (n + j) s eh x (ih s eh x hx)

theorem pressed_fuel_add (P : Platform) (n k : Nat) (s : sticky_modifiers_state)
    (binding : zmk_behavior_binding) (event : zmk_behavior_binding_event)
    (x : zmk_behavior_result × sticky_modifiers_state × Trace)
    (hx : on_sticky_modifiers_binding_pressed P n s binding event = some x) :
    on_sticky_modifiers_binding_pressed P (n + k) s binding event = some x := by
  have ih := listener_fuel_add P n k
  unfold on_sticky_modifiers_binding_pressed at hx ⊢
  simp only at hx ⊢
  split at hx
  · rename_i hn
    rw [if_pos hn]
    split at hx
    · simp at hx
    · rename_i s2 tr hr
      rw [raise_extends _ _ ih P _ _ _ _ _ hr]
      exact hx
  · rename_i hn
    rw [if_neg hn]
    split at hx
    · rename_i ha
      rw [if_pos ha]
      split at hx
      · simp at hx
      · rename_i s3 tr1 hr1
        rw [raise_modifiers_extends _ _ ih P _ _ _ _ _ hr1]
        simp only
        split at hx
        · simp at hx
        · rename_i s4 tr2 hr2
          rw [raise_modifiers_extends _ _ ih P _ _ _ _ _ hr2]
          simp only
          split at hx
          · simp at hx
          · rename_i s5 tr3 hr3
            rw [raise_modifiers_extends _ _ ih P _ _ _ _ _ hr3]
            exact hx
    · rename_i ha
      rw [if_neg ha]
      exact hx

theorem released_fuel_add (P : Platform) (n k : Nat) (s : sticky_modifiers_state)
    (binding : zmk_behavior_binding) (event : zmk_behavior_binding_event)
    (x : zmk_behavior_result × sticky_modifiers_state × Trace)
    (hx : on_sticky_modifiers_binding_released P n s binding event = some x) :
    on_sticky_modifiers_binding_released P (n + k) s binding event = some x := by
  have ih := listener_fuel_add P n k
  unfold on_sticky_modifiers_binding_released at hx ⊢
  simp only at hx ⊢
  split at hx
  · rename_i hn
    rw [if_pos hn]
    split at hx
    · simp at hx
    · rename_i s2 tr hr
      rw [raise_extends _ _ ih P _ _ _ _ _ hr]
      exact hx
  · rename_i hn
    rw [if_neg hn]
    exact hx

theorem call_fuel_add (P : Platform) (n k : Nat) (s : sticky_modifiers_state) (c : Call)
    (x : Outcome × sticky_modifiers_state × Trace) (hx : call P n s c = some x) :
    call P (n + k) s c = some x := by
  cases c with
  | binding_pressed b e =>
    unfold call at hx ⊢
    simp only at hx ⊢
    cases h : on_sticky_modifiers_binding_pressed P n s b e with
    | none => simp [h] at hx
    | some y => rw [h] at hx; rw [pressed_fuel_add P n k s b e y h]; exact hx
  | binding_released b e =>
    unfold call at hx ⊢
    simp only at hx ⊢
    cases h : on_sticky_modifiers_binding_released P n s b e with
    | none => simp [h] at hx
    | some y => rw [h] at hx; rw [released_fuel_add P n k s b e y h]; exact hx
  | listener eh =>
    unfold call at hx ⊢
    simp only at hx ⊢
    cases h : sticky_modifiers_keycode_state_changed_listener P n s eh with
    | none => simp [h] at hx
    | some y => rw [h] at hx; rw [listener_fuel_add P n k s eh y h]; exact hx

/-! ## The invariant of the reachable states -/

theorem at_state_of_mem_modifier_emissions (P : Platform) (pressed : Bool) (timestamp : Int)
    (s : sticky_modifiers_state) (l : List Nat) (e : Emission)
    (he : e ∈ modifier_emissions P pressed timestamp s l) : e.at_state = s := by
  unfold modifier_emissions at he
  obtain ⟨i, _, rfl⟩ := List.mem_map.mp he
  rfl

theorem inv_listener (P : Platform) (n : Nat) (s : sticky_modifiers_state) (eh : zmk_event_t)
    (r : zmk_ev_result) (s1 : sticky_modifiers_state) (tr : Trace) (hI : Inv s)
    (h : sticky_modifiers_keycode_state_changed_listener P (n + 2) s eh = some (r, s1, tr)) :
    Inv s1 ∧ ∀ e ∈ tr, Inv e.at_state := by
  obtain ⟨⟨hp, ha⟩, hna⟩ := hI
  cases eh with
  | other =>
    rw [listener_other] at h
    simp only [Option.some.injEq, Prod.mk.injEq] at h
    obtain ⟨-, rfl, rfl⟩ := h
    exact ⟨⟨⟨hp, ha⟩, hna⟩, by simp⟩
  | keycode_state_changed ev =>
    cases hs : ev.state with
    | false =>
      rw [listener_release_event P _ s ev hs] at h
      simp only [Option.some.injEq, Prod.mk.injEq] at h
      obtain ⟨-, rfl, rfl⟩ := h
      exact ⟨⟨⟨hp, ha⟩, hna⟩, by simp⟩
    | true =>
      by_cases h1 : s.modifiers_pressed ≠ 0 ∧ s.normal_mode = false
      · rw [listener_enter_normal P n s ev h1.1 hp h1.2 hs] at h
        simp only [Option.some.injEq, Prod.mk.injEq] at h
        obtain ⟨-, rfl, rfl⟩ := h
        have hI1 : Inv { s with normal_mode := true, modifiers_accumulated := 0 } :=
          ⟨⟨hp, by norm_num⟩, fun _ => rfl⟩
        refine ⟨hI1, fun e he => ?_⟩
        rw [at_state_of_mem_modifier_emissions P _ _ _ _ e he]
        exact hI1
      · have hq : s.modifiers_pressed = 0 ∨ s.normal_mode = true := by
          by_cases h0 : s.modifiers_pressed = 0
          · exact Or.inl h0
          · right
            cases hm : s.normal_mode with
            | true => rfl
            | false => exact absurd ⟨h0, hm⟩ h1
        by_cases h2 : s.modifiers_accumulated ≠ 0
        · rw [listener_trigger P n s ev hq h2 ha hs] at h
          simp only [Option.some.injEq, Prod.mk.injEq] at h
          obtain ⟨-, rfl, rfl⟩ := h
          have hI1 : Inv { s with modifiers_accumulated := 0 } :=
            ⟨⟨hp, by norm_num⟩, fun _ => rfl⟩
          refine ⟨hI1, fun e he => ?_⟩
          simp only [List.append_assoc, List.mem_append, List.mem_singleton, List.mem_cons,
            List.singleton_append] at he
          rcases he with he | he | he
          · rw [at_state_of_mem_modifier_emissions P _ _ _ _ e he]; exact hI1
          · rw [he]; exact hI1
          · rw [at_state_of_mem_modifier_emissions P _ _ _ _ e he]; exact hI1
        · have h2a : s.modifiers_accumulated = 0 := by
            by_contra hc
            exact h2 hc
          rw [listener_quiet P (n + 1) s _ ⟨h2a, hq⟩] at h
          simp only [Option.some.injEq, Prod.mk.injEq] at h
          obtain ⟨-, rfl, rfl⟩ := h
          exact ⟨⟨⟨hp, ha⟩, hna⟩, by simp⟩

theorem inv_pressed (P : Platform) (n : Nat) (s : sticky_modifiers_state)
    (binding : zmk_behavior_binding) (event : zmk_behavior_binding_event)
    (r : zmk_behavior_result) (s1 : sticky_modifiers_state) (tr : Trace) (hI : Inv s)
    (h : on_sticky_modifiers_binding_pressed P (n + 1) s binding event = some (r, s1, tr)) :
    Inv s1 ∧ ∀ e ∈ tr, Inv e.at_state := by
  obtain ⟨⟨hp, ha⟩, hna⟩ := hI
  have h256 : ∀ x : Nat, x % 256 < 256 := fun x => Nat.mod_lt _ (by norm_num)
  cases hm : s.normal_mode with
  | true =>
    rw [pressed_normal P n s binding event hm (hna hm)] at h
    simp only [Option.some.injEq, Prod.mk.injEq] at h
    obtain ⟨-, rfl, rfl⟩ := h
    have hI1 : Inv { s with modifiers_pressed :=
        (s.modifiers_pressed ||| modifier_bit_of binding) % 256 } := ⟨⟨h256 _, ha⟩, hna⟩
    refine ⟨hI1, fun e he => ?_⟩
    simp only [List.mem_singleton] at he
    rw [he]; exact hI1
  | false =>
    by_cases hb : s.modifiers_accumulated &&& modifier_bit_of binding = 0
    · rw [pressed_sticky_silent P _ s binding event hm hb] at h
      simp only [Option.some.injEq, Prod.mk.injEq] at h
      obtain ⟨-, rfl, rfl⟩ := h
      exact ⟨⟨⟨h256 _, ha⟩, hna⟩, by simp⟩
    · rw [pressed_double_tap P n s binding event hm hb] at h
      simp only [Option.some.injEq, Prod.mk.injEq] at h
      obtain ⟨-, rfl, rfl⟩ := h
      have hI1 : Inv { modifiers_pressed := (s.modifiers_pressed ||| modifier_bit_of binding) % 256
                       modifiers_accumulated := 0
                       normal_mode := true } := ⟨⟨h256 _, by norm_num⟩, fun _ => rfl⟩
      refine ⟨hI1, fun e he => ?_⟩
      simp only [List.append_assoc, List.mem_append] at he
      rcases he with he | he | he <;>
        (rw [at_state_of_mem_modifier_emissions P _ _ _ _ e he]; exact hI1)

theorem inv_released (P : Platform) (n : Nat) (s : sticky_modifiers_state)
    (binding : zmk_behavior_binding) (event : zmk_behavior_binding_event)
    (r : zmk_behavior_result) (s1 : sticky_modifiers_state) (tr : Trace) (hI : Inv s)
    (h : on_sticky_modifiers_binding_released P (n + 1) s binding event = some (r, s1, tr)) :
    Inv s1 ∧ ∀ e ∈ tr, Inv e.at_state := by
  obtain ⟨⟨hp, ha⟩, hna⟩ := hI
  have h256 : ∀ x : Nat, x % 256 < 256 := fun x => Nat.mod_lt _ (by norm_num)
  cases hm : s.normal_mode with
  | true =>
    rw [released_normal P n s binding event hm] at h
    simp only [Option.some.injEq, Prod.mk.injEq] at h
    obtain ⟨-, rfl, rfl⟩ := h
    have hI1 : Inv { s with modifiers_pressed :=
        (s.modifiers_pressed ^^^ modifier_bit_of binding) % 256 } := ⟨⟨h256 _, ha⟩, hna⟩
    refine ⟨?_, fun e he => ?_⟩
    · split
      · exact ⟨⟨h256 _, by norm_num⟩, fun hc => by simp at hc⟩
      · exact hI1
    · simp only [List.mem_singleton] at he
      rw [he]; exact hI1
  | false =>
    rw [released_sticky P _ s binding event hm] at h
    simp only [Option.some.injEq, Prod.mk.injEq] at h
    obtain ⟨-, rfl, rfl⟩ := h
    exact ⟨⟨⟨h256 _, h256 _⟩, fun hc => by simp at hc⟩, by simp⟩

theorem inv_call (P : Platform) (fuel : Nat) (s : sticky_modifiers_state) (c : Call)
    (r : Outcome) (s1 : sticky_modifiers_state) (tr : Trace) (hI : Inv s)
    (h : call P fuel s c = some (r, s1, tr)) :
    Inv s1 ∧ ∀ e ∈ tr, Inv e.at_state := by
  have h2 := call_fuel_add P fuel 2 s c _ h
  cases c with
  | binding_pressed b e =>
    unfold call at h2
    simp only at h2
    cases hc : on_sticky_modifiers_binding_pressed P (fuel + 2) s b e with
    | none => simp [hc] at h2
    | some y =>
      obtain ⟨r1, s2, tr2⟩ := y
      rw [hc] at h2
      simp only [Option.some.injEq, Prod.mk.injEq] at h2
      obtain ⟨-, rfl, rfl⟩ := h2
      exact inv_pressed P (fuel + 1) s b e r1 _ _ hI hc
  | binding_released b e =>
    unfold call at h2
    simp only at h2
    cases hc : on_sticky_modifiers_binding_released P (fuel + 2) s b e with
    | none => simp [hc] at h2
    | some y =>
      obtain ⟨r1, s2, tr2⟩ := y
      rw [hc] at h2
      simp only [Option.some.injEq, Prod.mk.injEq] at h2
      obtain ⟨-, rfl, rfl⟩ := h2
      exact inv_released P (fuel + 1) s b e r1 _ _ hI hc
  | listener eh =>
    unfold call at h2
    simp only at h2
    cases hc : sticky_modifiers_keycode_state_changed_listener P (fuel + 2) s eh with
    | none => simp [hc] at h2
    | some y =>
      obtain ⟨r1, s2, tr2⟩ := y
      rw [hc] at h2
      simp only [Option.some.injEq, Prod.mk.injEq] at h2
      obtain ⟨-, rfl, rfl⟩ := h2
      exact inv_listener P fuel s eh r1 _ _ hI hc

theorem inv_initial : Inv initial_state :=
  ⟨⟨by decide, by decide⟩, fun h => by simp [initial_state] at h⟩

theorem inv_of_reachable (P : Platform) (s : sticky_modifiers_state) (h : Reachable P s) :
    Inv s := by
  induction h with
  | init => exact inv_initial
  | after s c fuel r s1 tr _ hc ih => exact (inv_call P fuel s c r s1 tr ih hc).1
  | during s c fuel r s1 tr e _ hc he ih => exact (inv_call P fuel s c r s1 tr ih hc).2 e he

/-! ## Bits of a binding -/

theorem modifier_bit_of_index (b : zmk_behavior_binding) (i : Nat) (hi : i < 8)
    (hb : b.param1 &&& 0xF = i) : modifier_bit_of b = 1 <<< i := by
  unfold modifier_bit_of
  rw [hb]
  interval_cases i <;> rfl

theorem set_bits_single (i : Nat) (hi : i < 8) : set_bits (1 <<< i) = [i] := by
  interval_cases i <;> rfl

theorem one_shift_facts (i : Nat) (hi : i < 8) :
    (1 <<< i) % 256 = 1 <<< i ∧ (0 ||| 1 <<< i) % 256 = 1 <<< i
      ∧ (1 <<< i ^^^ 1 <<< i) % 256 = 0 ∧ 0 &&& (1 <<< i) = 0
      ∧ (1 <<< i) &&& (1 <<< i) ≠ 0 ∧ (1 : Nat) <<< i ≠ 0 ∧ (1 : Nat) <<< i < 256 := by
  interval_cases i <;> decide

theorem observed_some {α : Type} (a : α) (s : sticky_modifiers_state) (tr : Trace) :
    observed (some (a, s, tr)) = some (a, s, events tr) := rfl

theorem events_nil : events [] = [] := rfl

theorem events_singleton (e : Emission) : events [e] = [e.event] := rfl

/-! ## The claims -/

/-- C1: from the initial state, pressing and releasing the sticky key of
modifier `i` (0..7) emits nothing, and the listener then answers a pressed
keycode event `K` with exactly three events in this order: press of modifier
`i`, the duplicate of `K`, release of modifier `i`, both modifier events at
`K`'s timestamp with the encoded keycode of modifier `i`; it returns
"handled" and the engine is back in its initial state. -/
theorem tap_then_key_emits_press_copy_release (P : Platform) (fuel i : Nat)
    (b : zmk_behavior_binding) (e1 e2 : zmk_behavior_binding_event)
    (K : zmk_keycode_state_changed) (hi : i < 8) (hb : b.param1 &&& 0xF = i)
    (hK : K.state = true) :
    observed (on_sticky_modifiers_binding_pressed P fuel initial_state b e1)
        = some (zmk_behavior_result.ZMK_BEHAVIOR_OPAQUE,
            { modifiers_pressed := 1 <<< i, modifiers_accumulated := 0, normal_mode := false },
            [])
      ∧ observed (on_sticky_modifiers_binding_released P fuel
            { modifiers_pressed := 1 <<< i, modifiers_accumulated := 0, normal_mode := false }
            b e2)
        = some (zmk_behavior_result.ZMK_BEHAVIOR_OPAQUE,
            { modifiers_pressed := 0, modifiers_accumulated := 1 <<< i, normal_mode := false },
            [])
      ∧ observed (sticky_modifiers_keycode_state_changed_listener P (fuel + 2)
            { modifiers_pressed := 0, modifiers_accumulated := 1 <<< i, normal_mode := false }
            (zmk_event_t.keycode_state_changed K))
        = some (zmk_ev_result.ZMK_EV_EVENT_HANDLED, initial_state,
            [BusEvent.raised (modifier_encoded P i) true K.timestamp,
             BusEvent.released K,
             BusEvent.raised (modifier_encoded P i) false K.timestamp]) := by
  have hbit := modifier_bit_of_index b i hi hb
  obtain ⟨f1, f2, f3, f4, f5, f6, f7⟩ := one_shift_facts i hi
  refine ⟨?_, ?_, ?_⟩
  · rw [pressed_sticky_silent P fuel initial_state b e1 rfl (by rw [hbit]; exact f4),
      observed_some, hbit]
    simp only [initial_state, f2, events_nil]
  · rw [released_sticky P fuel _ b e2 rfl, observed_some, hbit]
    simp only [f2, f3, events_nil]
  · rw [listener_trigger P fuel _ K (Or.inl rfl) f6 f7 hK, observed_some]
    simp only [events_append, events_modifier_emissions, events_singleton, set_bits_single i hi,
      modifier_events, List.map_cons, List.map_nil, List.singleton_append, List.cons_append,
      List.nil_append, initial_state]

/-- C1 at modifier 1 on the sample platform, key `a` pressed at time 42. -/
theorem tap_then_key_emits_press_copy_release_witness :
    (1 < 8 ∧ (sample_binding 1).param1 &&& 0xF = 1 ∧ (sample_key 4 42).state = true)
      ∧ observed (sticky_modifiers_keycode_state_changed_listener sample_platform (0 + 2)
            { modifiers_pressed := 0, modifiers_accumulated := 1 <<< 1, normal_mode := false }
            (zmk_event_t.keycode_state_changed (sample_key 4 42)))
        = some (zmk_ev_result.ZMK_EV_EVENT_HANDLED, initial_state,
            [BusEvent.raised (modifier_encoded sample_platform 1) true (sample_key 4 42).timestamp,
             BusEvent.released (sample_key 4 42),
             BusEvent.raised (modifier_encoded sample_platform 1) false
               (sample_key 4 42).timestamp]) :=
  ⟨⟨by decide, by decide, rfl⟩,
    (tap_then_key_emits_press_copy_release sample_platform 0 1 (sample_binding 1)
      (sample_binding_event 10) (sample_binding_event 20) (sample_key 4 42)
      (by decide) (by decide) rfl).2.2⟩

theorem set_bits_pairwise (m : Nat) : List.Pairwise (fun i j => i < j) (set_bits m) :=
  List.Pairwise.filter _ (List.pairwise_lt_range 8)

theorem mem_set_bits (m : Nat) (hm : m < 256) (i : Nat) :
    i ∈ set_bits m ↔ m.testBit i = true := by
  unfold set_bits
  rw [List.mem_filter, List.mem_range]
  constructor
  · exact fun h => h.2
  · intro h
    refine ⟨?_, h⟩
    by_contra hc
    have h8 : 8 ≤ i := Nat.le_of_not_lt hc
    have hlt : m < 2 ^ i := lt_of_lt_of_le hm
      (le_trans (by norm_num) (Nat.pow_le_pow_right (by norm_num) h8))
    rw [Nat.testBit_eq_false_of_lt hlt] at h
    exact Bool.noConfusion h

/-- C2: in a state with no sticky key held, not in normal mode, and a
non-empty accumulated set `A` (an 8-bit value), the listener answers a pressed keycode event
`K` with one press per member of `A` in strictly increasing index order, then
the duplicate of `K`, then one release per member of `A` in the same order,
every modifier event at `K`'s timestamp; it returns "handled", empties
`modifiers_accumulated` and leaves the other two fields as they were. -/
theorem trigger_applies_accumulated_in_index_order (P : Platform) (fuel : Nat)
    (s : sticky_modifiers_state) (K : zmk_keycode_state_changed)
    (hp : s.modifiers_pressed = 0) (_hn : s.normal_mode = false)
    (hA : s.modifiers_accumulated ≠ 0) (hlt : s.modifiers_accumulated < 256)
    (hK : K.state = true) :
    observed (sticky_modifiers_keycode_state_changed_listener P (fuel + 2) s
          (zmk_event_t.keycode_state_changed K))
        = some (zmk_ev_result.ZMK_EV_EVENT_HANDLED,
            { modifiers_pressed := s.modifiers_pressed, modifiers_accumulated := 0,
              normal_mode := s.normal_mode },
            (set_bits s.modifiers_accumulated).map
                (fun i => BusEvent.raised (modifier_encoded P i) true K.timestamp)
              ++ [BusEvent.released K]
              ++ (set_bits s.modifiers_accumulated).map
                (fun i => BusEvent.raised (modifier_encoded P i) false K.timestamp))
      ∧ List.Pairwise (fun i j => i < j) (set_bits s.modifiers_accumulated)
      ∧ ∀ i, i ∈ set_bits s.modifiers_accumulated ↔ s.modifiers_accumulated.testBit i = true := by
  refine ⟨?_, set_bits_pairwise _, mem_set_bits _ hlt⟩
  rw [listener_trigger P fuel s K (Or.inl hp) hA hlt hK, observed_some]
  simp only [events_append, events_modifier_emissions, events_singleton, modifier_events]

/-- C2 with control and shift accumulated (bits 0 and 1) on the sample
platform. -/
theorem trigger_applies_accumulated_in_index_order_witness :
    ((0 : Nat) = 0 ∧ false = false ∧ (3 : Nat) ≠ 0 ∧ (3 : Nat) < 256
        ∧ (sample_key 4 42).state = true)
      ∧ observed (sticky_modifiers_keycode_state_changed_listener sample_platform (0 + 2)
            { modifiers_pressed := 0, modifiers_accumulated := 3, normal_mode := false }
            (zmk_event_t.keycode_state_changed (sample_key 4 42)))
        = some (zmk_ev_result.ZMK_EV_EVENT_HANDLED,
            { modifiers_pressed := 0, modifiers_accumulated := 0, normal_mode := false },
            (set_bits 3).map
                (fun i => BusEvent.raised (modifier_encoded sample_platform i) true
                  (sample_key 4 42).timestamp)
              ++ [BusEvent.released (sample_key 4 42)]
              ++ (set_bits 3).map
                (fun i => BusEvent.raised (modifier_encoded sample_platform i) false
                  (sample_key 4 42).timestamp)) :=
  ⟨⟨rfl, rfl, by decide, by decide, rfl⟩,
    (trigger_applies_accumulated_in_index_order sample_platform 0
      { modifiers_pressed := 0, modifiers_accumulated := 3, normal_mode := false }
      (sample_key 4 42) rfl rfl (by decide) (by decide) rfl).1⟩

/-- C3: from the initial state, press, release, press of the sticky key of
modifier `i` (0..7): the first two calls emit nothing, and the second press
emits exactly press, release, press of modifier `i`, all at its own
timestamp, leaving normal mode on, nothing accumulated and exactly bit `i`
in `modifiers_pressed`. -/
theorem double_tap_enters_normal_mode (P : Platform) (fuel i : Nat)
    (b : zmk_behavior_binding) (e1 e2 e3 : zmk_behavior_binding_event)
    (hi : i < 8) (hb : b.param1 &&& 0xF = i) :
    observed (on_sticky_modifiers_binding_pressed P fuel initial_state b e1)
        = some (zmk_behavior_result.ZMK_BEHAVIOR_OPAQUE,
            { modifiers_pressed := 1 <<< i, modifiers_accumulated := 0, normal_mode := false },
            [])
      ∧ observed (on_sticky_modifiers_binding_released P fuel
            { modifiers_pressed := 1 <<< i, modifiers_accumulated := 0, normal_mode := false }
            b e2)
        = some (zmk_behavior_result.ZMK_BEHAVIOR_OPAQUE,
            { modifiers_pressed := 0, modifiers_accumulated := 1 <<< i, normal_mode := false },
            [])
      ∧ observed (on_sticky_modifiers_binding_pressed P (fuel + 1)
            { modifiers_pressed := 0, modifiers_accumulated := 1 <<< i, normal_mode := false }
            b e3)
        = some (zmk_behavior_result.ZMK_BEHAVIOR_OPAQUE,
            { modifiers_pressed := 1 <<< i, modifiers_accumulated := 0, normal_mode := true },
            [BusEvent.raised (modifier_encoded P i) true e3.timestamp,
             BusEvent.raised (modifier_encoded P i) false e3.timestamp,
             BusEvent.raised (modifier_encoded P i) true e3.timestamp]) := by
  have hbit := modifier_bit_of_index b i hi hb
  obtain ⟨f1, f2, f3, f4, f5, f6, f7⟩ := one_shift_facts i hi
  refine ⟨?_, ?_, ?_⟩
  · rw [pressed_sticky_silent P fuel initial_state b e1 rfl (by rw [hbit]; exact f4),
      observed_some, hbit]
    simp only [initial_state, f2, events_nil]
  · rw [released_sticky P fuel _ b e2 rfl, observed_some, hbit]
    simp only [f2, f3, events_nil]
  · rw [pressed_double_tap P fuel _ b e3 rfl (by rw [hbit]; exact f5), observed_some, hbit]
    simp only [events_append, events_modifier_emissions, set_bits_single i hi,
      modifier_events, List.map_cons, List.map_nil, List.singleton_append, List.cons_append,
      List.nil_append, f2]

/-- C3 at modifier 2 on the sample platform, second press at time 30. -/
theorem double_tap_enters_normal_mode_witness :
    (2 < 8 ∧ (sample_binding 2).param1 &&& 0xF = 2)
      ∧ observed (on_sticky_modifiers_binding_pressed sample_platform (0 + 1)
            { modifiers_pressed := 0, modifiers_accumulated := 1 <<< 2, normal_mode := false }
            (sample_binding 2) (sample_binding_event 30))
        = some (zmk_behavior_result.ZMK_BEHAVIOR_OPAQUE,
            { modifiers_pressed := 1 <<< 2, modifiers_accumulated := 0, normal_mode := true },
            [BusEvent.raised (modifier_encoded sample_platform 2) true
               (sample_binding_event 30).timestamp,
             BusEvent.raised (modifier_encoded sample_platform 2) false
               (sample_binding_event 30).timestamp,
             BusEvent.raised (modifier_encoded sample_platform 2) true
               (sample_binding_event 30).timestamp]) :=
  ⟨⟨by decide, by decide⟩,
    (double_tap_enters_normal_mode sample_platform 0 2 (sample_binding 2)
      (sample_binding_event 10) (sample_binding_event 20) (sample_binding_event 30)
      (by decide) (by decide)).2.2⟩

/-- C4: in every reachable state with normal mode on (states at the moment
of an emission, where the listener is re-entered, included) the listener
answers any keycode event with "bubble", emits nothing and leaves the state
as it is. -/
theorem normal_mode_listener_never_intercepts (P : Platform) (fuel : Nat)
    (s : sticky_modifiers_state) (K : zmk_keycode_state_changed)
    (hr : Reachable P s) (hn : s.normal_mode = true) :
    sticky_modifiers_keycode_state_changed_listener P (fuel + 1) s
        (zmk_event_t.keycode_state_changed K)
      = some (zmk_ev_result.ZMK_EV_EVENT_BUBBLE, s, []) :=
  listener_quiet P fuel s _ ⟨(inv_of_reachable P s hr).2 hn, Or.inr hn⟩

/-- C4 in the state a double tap of modifier 2 leaves behind. -/
theorem normal_mode_listener_never_intercepts_witness :
    (Reachable sample_platform
        { modifiers_pressed := 4, modifiers_accumulated := 0, normal_mode := true }
      ∧ true = true)
      ∧ sticky_modifiers_keycode_state_changed_listener sample_platform (0 + 1)
          { modifiers_pressed := 4, modifiers_accumulated := 0, normal_mode := true }
          (zmk_event_t.keycode_state_changed (sample_key 4 42))
        = some (zmk_ev_result.ZMK_EV_EVENT_BUBBLE,
            { modifiers_pressed := 4, modifiers_accumulated := 0, normal_mode := true }, []) :=
  have h1 : Reachable sample_platform
      { modifiers_pressed := 4, modifiers_accumulated := 0, normal_mode := false } :=
    Reachable.after initial_state
      (Call.binding_pressed (sample_binding 2) (sample_binding_event 10)) 1 _ _ _
      Reachable.init rfl
  have h2 : Reachable sample_platform
      { modifiers_pressed := 0, modifiers_accumulated := 4, normal_mode := false } :=
    Reachable.after _
      (Call.binding_released (sample_binding 2) (sample_binding_event 20)) 1 _ _ _ h1 rfl
  have h3 : Reachable sample_platform
      { modifiers_pressed := 4, modifiers_accumulated := 0, normal_mode := true } :=
    Reachable.after _
      (Call.binding_pressed (sample_binding 2) (sample_binding_event 30)) 1 _ _ _ h2 rfl
  ⟨⟨h3, rfl⟩,
    normal_mode_listener_never_intercepts sample_platform 0 _ (sample_key 4 42) h3 rfl⟩

/-- C5: in normal mode, with `modifiers_pressed` an 8-bit value, releasing
the sticky key of modifier `i` (0..7), at any re-entry depth of one or more, emits
exactly one event, a release with the binding's raw `param1` at the event's
timestamp, and toggles bit `i` of `modifiers_pressed`; when that leaves
`modifiers_pressed` empty normal mode is left and nothing is accumulated,
otherwise normal mode stays on and `modifiers_accumulated` is unchanged. -/
theorem normal_mode_release_emits_raw_release (P : Platform) (fuel i : Nat)
    (s : sticky_modifiers_state) (b : zmk_behavior_binding) (e : zmk_behavior_binding_event)
    (hi : i < 8) (hb : b.param1 &&& 0xF = i) (hn : s.normal_mode = true)
    (hp : s.modifiers_pressed < 256) :
    observed (on_sticky_modifiers_binding_released P (fuel + 1) s b e)
      = some (zmk_behavior_result.ZMK_BEHAVIOR_OPAQUE,
          (if s.modifiers_pressed ^^^ 1 <<< i = 0 then
            { modifiers_pressed := s.modifiers_pressed ^^^ 1 <<< i
              modifiers_accumulated := 0
              normal_mode := false }
          else
            { modifiers_pressed := s.modifiers_pressed ^^^ 1 <<< i
              modifiers_accumulated := s.modifiers_accumulated
              normal_mode := true }),
          [BusEvent.raised b.param1 false e.timestamp]) := by
  have hbit := modifier_bit_of_index b i hi hb
  have hx : (s.modifiers_pressed ^^^ 1 <<< i) % 256 = s.modifiers_pressed ^^^ 1 <<< i :=
    Nat.mod_eq_of_lt (Nat.xor_lt_two_pow (n := 8) hp (one_shift_facts i hi).2.2.2.2.2.2)
  obtain ⟨p, a, m⟩ := s
  simp only at hn hp hx
  subst hn
  rw [released_normal P fuel _ b e rfl, observed_some, hbit]
  simp only [hx, events_singleton]

/-- C5 with control and alt held in normal mode, alt (modifier 2) released. -/
theorem normal_mode_release_emits_raw_release_witness :
    (2 < 8 ∧ (sample_binding 2).param1 &&& 0xF = 2 ∧ true = true ∧ 5 < 256)
      ∧ observed (on_sticky_modifiers_binding_released sample_platform (0 + 1)
            { modifiers_pressed := 5, modifiers_accumulated := 0, normal_mode := true }
            (sample_binding 2) (sample_binding_event 30))
        = some (zmk_behavior_result.ZMK_BEHAVIOR_OPAQUE,
            (if 5 ^^^ 1 <<< 2 = 0 then
              { modifiers_pressed := 5 ^^^ 1 <<< 2
                modifiers_accumulated := 0
                normal_mode := false }
            else
              { modifiers_pressed := 5 ^^^ 1 <<< 2
                modifiers_accumulated := 0
                normal_mode := true }),
            [BusEvent.raised (sample_binding 2).param1 false
              (sample_binding_event 30).timestamp]) :=
  ⟨⟨by decide, by decide, rfl, by decide⟩,
    normal_mode_release_emits_raw_release sample_platform 0 2
      { modifiers_pressed := 5, modifiers_accumulated := 0, normal_mode := true }
      (sample_binding 2) (sample_binding_event 30) (by decide) (by decide) rfl (by decide)⟩

theorem call_pressed_of (P : Platform) (fuel : Nat) (s : sticky_modifiers_state)
    (b : zmk_behavior_binding) (e : zmk_behavior_binding_event) (r : zmk_behavior_result)
    (s1 : sticky_modifiers_state) (tr : Trace)
    (h : on_sticky_modifiers_binding_pressed P fuel s b e = some (r, s1, tr)) :
    call P fuel s (Call.binding_pressed b e) = some (Outcome.behavior r, s1, tr) := by
  simp [call, h]

theorem call_released_of (P : Platform) (fuel : Nat) (s : sticky_modifiers_state)
    (b : zmk_behavior_binding) (e : zmk_behavior_binding_event) (r : zmk_behavior_result)
    (s1 : sticky_modifiers_state) (tr : Trace)
    (h : on_sticky_modifiers_binding_released P fuel s b e = some (r, s1, tr)) :
    call P fuel s (Call.binding_released b e) = some (Outcome.behavior r, s1, tr) := by
  simp [call, h]

theorem call_listener_of (P : Platform) (fuel : Nat) (s : sticky_modifiers_state)
    (eh : zmk_event_t) (r : zmk_ev_result) (s1 : sticky_modifiers_state) (tr : Trace)
    (h : sticky_modifiers_keycode_state_changed_listener P fuel s eh = some (r, s1, tr)) :
    call P fuel s (Call.listener eh) = some (Outcome.disposition r, s1, tr) := by
  simp [call, h]

theorem run_observed_nil (P : Platform) (fuel : Nat) (s : sticky_modifiers_state) :
    run_observed P fuel s [] = some (s, []) := rfl

theorem run_observed_cons (P : Platform) (fuel : Nat) (s : sticky_modifiers_state) (c : Call)
    (cs : List Call) (r : Outcome) (s1 : sticky_modifiers_state) (tr1 : Trace)
    (h : call P fuel s c = some (r, s1, tr1)) :
    run_observed P fuel s (c :: cs)
      = (run_observed P fuel s1 cs).map (fun x => (x.1, events tr1 ++ x.2)) := by
  unfold run_observed
  simp only [run, h]
  cases run P fuel s1 cs with
  | none => rfl
  | some y => simp [events_append]

theorem releases_emit_nothing (P : Platform) (fuel : Nat) (b : zmk_behavior_binding)
    (rs : List zmk_behavior_binding_event) :
    ∀ s : sticky_modifiers_state, s.normal_mode = false →
      (run_observed P fuel s (rs.map (Call.binding_released b))).map Prod.snd = some [] := by
  induction rs with
  | nil => intro s _; rfl
  | cons e rest ih =>
    intro s hn
    rw [List.map_cons, run_observed_cons P fuel s _ _ _ _ _
      (call_released_of P fuel s b e _ _ _ (released_sticky P fuel s b e hn))]
    have h := ih { modifiers_pressed := (s.modifiers_pressed ^^^ modifier_bit_of b) % 256
                   modifiers_accumulated := (s.modifiers_accumulated ||| modifier_bit_of b) % 256
                   normal_mode := false } rfl
    revert h
    cases run_observed P fuel _ (rest.map (Call.binding_released b)) with
    | none => intro h; simp at h
    | some y => intro h; simpa [events_nil] using h

theorem presses_then_releases_emit_nothing (P : Platform) (fuel : Nat)
    (b : zmk_behavior_binding) (ps rs : List zmk_behavior_binding_event) :
    ∀ s : sticky_modifiers_state, s.normal_mode = false → s.modifiers_accumulated = 0 →
      (run_observed P fuel s
        (ps.map (Call.binding_pressed b) ++ rs.map (Call.binding_released b))).map Prod.snd
        = some [] := by
  induction ps with
  | nil => intro s hn _; exact releases_emit_nothing P fuel b rs s hn
  | cons e rest ih =>
    intro s hn ha
    have hz : s.modifiers_accumulated &&& modifier_bit_of b = 0 := by
      rw [ha]; exact Nat.zero_and _
    rw [List.map_cons, List.cons_append, run_observed_cons P fuel s _ _ _ _ _
      (call_pressed_of P fuel s b e _ _ _ (pressed_sticky_silent P fuel s b e hn hz))]
    have h := ih { s with modifiers_pressed := (s.modifiers_pressed ||| modifier_bit_of b) % 256 }
      hn ha
    revert h
    cases run_observed P fuel _
        (rest.map (Call.binding_pressed b) ++ rs.map (Call.binding_released b)) with
    | none => intro h; simp at h
    | some y => intro h; simpa [events_nil] using h

/-- C6, as stated, fails: a press, a release and a second press of the sticky
key of modifier 0, with no keycode event in between, emit three events. -/
theorem single_modifier_double_tap_emits :
    run_observed sample_platform 2 initial_state
        [Call.binding_pressed (sample_binding 0) (sample_binding_event 10),
         Call.binding_released (sample_binding 0) (sample_binding_event 20),
         Call.binding_pressed (sample_binding 0) (sample_binding_event 30)]
      = some ({ modifiers_pressed := 1, modifiers_accumulated := 0, normal_mode := true },
          [BusEvent.raised 0x0700E0 true 30, BusEvent.raised 0x0700E0 false 30,
           BusEvent.raised 0x0700E0 true 30]) := by
  decide

/-- C6, amended: from the initial state, a sequence of presses and releases
of one sticky key in which no press follows a release (any number of
presses, then any number of releases), with no keycode event delivered,
runs to completion and emits no event. -/
theorem single_modifier_without_second_tap_is_silent (P : Platform) (fuel : Nat)
    (b : zmk_behavior_binding) (ps rs : List zmk_behavior_binding_event) :
    (run_observed P fuel initial_state
      (ps.map (Call.binding_pressed b) ++ rs.map (Call.binding_released b))).map Prod.snd
      = some [] :=
  presses_then_releases_emit_nothing P fuel b ps rs initial_state rfl rfl

/-- C7: from the initial state, after a press and a release of the sticky
key of modifier `i` (0..7) and the listener on a pressed keycode event `K1`,
the engine is back in its initial state having emitted only the three events
around `K1`; the listener then answers a second pressed keycode event `K2`
with "bubble", emits nothing and leaves the initial state in place. -/
theorem armed_modifier_is_one_shot (P : Platform) (fuel i : Nat)
    (b : zmk_behavior_binding) (e1 e2 : zmk_behavior_binding_event)
    (K1 K2 : zmk_keycode_state_changed) (hi : i < 8) (hb : b.param1 &&& 0xF = i)
    (hK1 : K1.state = true) (_hK2 : K2.state = true) :
    run_observed P (fuel + 2) initial_state
        [Call.binding_pressed b e1, Call.binding_released b e2,
         Call.listener (zmk_event_t.keycode_state_changed K1)]
      = some (initial_state,
          [BusEvent.raised (modifier_encoded P i) true K1.timestamp,
           BusEvent.released K1,
           BusEvent.raised (modifier_encoded P i) false K1.timestamp])
      ∧ sticky_modifiers_keycode_state_changed_listener P (fuel + 1) initial_state
          (zmk_event_t.keycode_state_changed K2)
        = some (zmk_ev_result.ZMK_EV_EVENT_BUBBLE, initial_state, []) := by
  have hbit := modifier_bit_of_index b i hi hb
  obtain ⟨f1, f2, f3, f4, f5, f6, f7⟩ := one_shift_facts i hi
  refine ⟨?_, listener_quiet P fuel initial_state _ ⟨rfl, Or.inl rfl⟩⟩
  rw [run_observed_cons P _ _ _ _ _ _ _ (call_pressed_of P _ _ b e1 _ _ _
      (pressed_sticky_silent P _ initial_state b e1 rfl (by rw [hbit]; exact f4))),
    run_observed_cons P _ _ _ _ _ _ _ (call_released_of P _ _ b e2 _ _ _
      (released_sticky P _ _ b e2 rfl))]
  simp only [hbit, initial_state, f2, f3]
  rw [run_observed_cons P _ _ _ _ _ _ _ (call_listener_of P _ _ _ _ _ _
      (listener_trigger P fuel _ K1 (Or.inl rfl) f6 f7 hK1)), run_observed_nil]
  simp only [events_append, events_modifier_emissions, events_singleton, events_nil,
    set_bits_single i hi, modifier_events, List.map_cons, List.map_nil, List.singleton_append,
    List.cons_append, List.nil_append, List.append_nil, Option.map_some']

/-- C7 at modifier 0 on the sample platform, with keys `a` then `b`. -/
theorem armed_modifier_is_one_shot_witness :
    (0 < 8 ∧ (sample_binding 0).param1 &&& 0xF = 0 ∧ (sample_key 4 42).state = true
        ∧ (sample_key 5 43).state = true)
      ∧ sticky_modifiers_keycode_state_changed_listener sample_platform (0 + 1) initial_state
          (zmk_event_t.keycode_state_changed (sample_key 5 43))
        = some (zmk_ev_result.ZMK_EV_EVENT_BUBBLE, initial_state, []) :=
  ⟨⟨by decide, by decide, rfl, rfl⟩,
    (armed_modifier_is_one_shot sample_platform 0 0 (sample_binding 0)
      (sample_binding_event 10) (sample_binding_event 20) (sample_key 4 42) (sample_key 5 43)
      (by decide) (by decide) rfl rfl).2⟩

/-- C8, as stated, fails: with control accumulated, a press of the standard
modifier left shift (usage page 0x07, usage id 0xE1) is a trigger like any
other key: control is pressed, the event is duplicated, control is released,
the accumulator is emptied and the event is reported handled. -/
theorem modifier_keycode_is_a_trigger :
    observed (sticky_modifiers_keycode_state_changed_listener sample_platform 2
        { modifiers_pressed := 0, modifiers_accumulated := 1, normal_mode := false }
        (zmk_event_t.keycode_state_changed (sample_key 0xE1 42)))
      = some (zmk_ev_result.ZMK_EV_EVENT_HANDLED,
          { modifiers_pressed := 0, modifiers_accumulated := 0, normal_mode := false },
          [BusEvent.raised 0x0700E0 true 42, BusEvent.released (sample_key 0xE1 42),
           BusEvent.raised 0x0700E0 false 42]) := by
  decide

/-- C8, amended: the listener does not look at the keycode. In a state with
no sticky key held, not in normal mode and a non-empty accumulated set, a
pressed keycode event that is itself one of the eight standard modifiers
(usage page `HID_USAGE_KEY`, usage id `HID_USAGE_KEY_KEYBOARD_LEFTCONTROL + j`
with `j` in 0..7) is a trigger: the accumulated modifiers are pressed in
increasing index order, the event is duplicated, the modifiers are released,
the accumulator is emptied and the event is reported handled. -/
theorem modifier_keycode_triggers_accumulated (P : Platform) (fuel j : Nat)
    (s : sticky_modifiers_state) (K : zmk_keycode_state_changed)
    (hp : s.modifiers_pressed = 0) (_hn : s.normal_mode = false)
    (hA : s.modifiers_accumulated ≠ 0) (hlt : s.modifiers_accumulated < 256)
    (hK : K.state = true) (_hj : j < 8) (_hpage : K.usage_page = P.HID_USAGE_KEY)
    (_hid : K.keycode = P.HID_USAGE_KEY_KEYBOARD_LEFTCONTROL + j) :
    observed (sticky_modifiers_keycode_state_changed_listener P (fuel + 2) s
          (zmk_event_t.keycode_state_changed K))
        = some (zmk_ev_result.ZMK_EV_EVENT_HANDLED,
            { modifiers_pressed := s.modifiers_pressed, modifiers_accumulated := 0,
              normal_mode := s.normal_mode },
            (set_bits s.modifiers_accumulated).map
                (fun i => BusEvent.raised (modifier_encoded P i) true K.timestamp)
              ++ [BusEvent.released K]
              ++ (set_bits s.modifiers_accumulated).map
                (fun i => BusEvent.raised (modifier_encoded P i) false K.timestamp)) := by
  rw [listener_trigger P fuel s K (Or.inl hp) hA hlt hK, observed_some]
  simp only [events_append, events_modifier_emissions, events_singleton, modifier_events]

/-- C8 amended, with control accumulated and left shift pressed. -/
theorem modifier_keycode_triggers_accumulated_witness :
    ((0 : Nat) = 0 ∧ false = false ∧ (1 : Nat) ≠ 0 ∧ (1 : Nat) < 256
        ∧ (sample_key 0xE1 42).state = true ∧ 1 < 8
        ∧ (sample_key 0xE1 42).usage_page = sample_platform.HID_USAGE_KEY
        ∧ (sample_key 0xE1 42).keycode
            = sample_platform.HID_USAGE_KEY_KEYBOARD_LEFTCONTROL + 1)
      ∧ observed (sticky_modifiers_keycode_state_changed_listener sample_platform (0 + 2)
            { modifiers_pressed := 0, modifiers_accumulated := 1, normal_mode := false }
            (zmk_event_t.keycode_state_changed (sample_key 0xE1 42)))
        = some (zmk_ev_result.ZMK_EV_EVENT_HANDLED,
            { modifiers_pressed := 0, modifiers_accumulated := 0, normal_mode := false },
            (set_bits 1).map
                (fun i => BusEvent.raised (modifier_encoded sample_platform i) true
                  (sample_key 0xE1 42).timestamp)
              ++ [BusEvent.released (sample_key 0xE1 42)]
              ++ (set_bits 1).map
                (fun i => BusEvent.raised (modifier_encoded sample_platform i) false
                  (sample_key 0xE1 42).timestamp)) :=
  ⟨⟨rfl, rfl, by decide, by decide, rfl, by decide, rfl, rfl⟩,
    modifier_keycode_triggers_accumulated sample_platform 0 1
      { modifiers_pressed := 0, modifiers_accumulated := 1, normal_mode := false }
      (sample_key 0xE1 42) rfl rfl (by decide) (by decide) rfl (by decide) rfl rfl⟩

/-- C9: in a state with a non-empty set `modifiers_pressed` (an 8-bit value)
and normal mode off, whatever is accumulated, the listener answers a pressed keycode event
`K` by turning normal mode on, emptying `modifiers_accumulated`, keeping
`modifiers_pressed`, and emitting exactly one press per held modifier in
strictly increasing index order at `K`'s timestamp, with no release and no
duplicate of `K`; it returns "bubble". -/
theorem key_while_sticky_held_enters_normal_mode (P : Platform) (fuel : Nat)
    (s : sticky_modifiers_state) (K : zmk_keycode_state_changed)
    (hp : s.modifiers_pressed ≠ 0) (hlt : s.modifiers_pressed < 256)
    (hn : s.normal_mode = false) (hK : K.state = true) :
    observed (sticky_modifiers_keycode_state_changed_listener P (fuel + 2) s
          (zmk_event_t.keycode_state_changed K))
        = some (zmk_ev_result.ZMK_EV_EVENT_BUBBLE,
            { modifiers_pressed := s.modifiers_pressed, modifiers_accumulated := 0,
              normal_mode := true },
            (set_bits s.modifiers_pressed).map
              (fun i => BusEvent.raised (modifier_encoded P i) true K.timestamp))
      ∧ List.Pairwise (fun i j => i < j) (set_bits s.modifiers_pressed)
      ∧ ∀ i, i ∈ set_bits s.modifiers_pressed ↔ s.modifiers_pressed.testBit i = true := by
  refine ⟨?_, set_bits_pairwise _, mem_set_bits _ hlt⟩
  rw [listener_enter_normal P fuel s K hp hlt hn hK, observed_some]
  simp only [events_modifier_emissions, modifier_events]

/-- C9 with control and alt held and shift accumulated. -/
theorem key_while_sticky_held_enters_normal_mode_witness :
    ((5 : Nat) ≠ 0 ∧ (5 : Nat) < 256 ∧ false = false ∧ (sample_key 4 42).state = true)
      ∧ observed (sticky_modifiers_keycode_state_changed_listener sample_platform (0 + 2)
            { modifiers_pressed := 5, modifiers_accumulated := 2, normal_mode := false }
            (zmk_event_t.keycode_state_changed (sample_key 4 42)))
        = some (zmk_ev_result.ZMK_EV_EVENT_BUBBLE,
            { modifiers_pressed := 5, modifiers_accumulated := 0, normal_mode := true },
            (set_bits 5).map
              (fun i => BusEvent.raised (modifier_encoded sample_platform i) true
                (sample_key 4 42).timestamp)) :=
  ⟨⟨by decide, by decide, rfl, rfl⟩,
    (key_while_sticky_held_enters_normal_mode sample_platform 0
      { modifiers_pressed := 5, modifiers_accumulated := 2, normal_mode := false }
      (sample_key 4 42) (by decide) (by decide) rfl rfl).1⟩

/-- C10: in every state, for an event that is not a keycode-state-changed
event (the cast gives `NULL`) and for a keycode event whose state is
"released", the listener returns "bubble", emits nothing and leaves the
three state fields as they are. -/
theorem null_or_release_event_bubbles (P : Platform) (fuel : Nat) (s : sticky_modifiers_state)
    (K : zmk_keycode_state_changed) :
    as_zmk_keycode_state_changed zmk_event_t.other = none
      ∧ sticky_modifiers_keycode_state_changed_listener P (fuel + 1) s zmk_event_t.other
        = some (zmk_ev_result.ZMK_EV_EVENT_BUBBLE, s, [])
      ∧ sticky_modifiers_keycode_state_changed_listener P (fuel + 1) s
          (zmk_event_t.keycode_state_changed { K with state := false })
        = some (zmk_ev_result.ZMK_EV_EVENT_BUBBLE, s, []) :=
  ⟨rfl, listener_other P fuel s, listener_release_event P fuel s _ rfl⟩

/-- C11: in every reachable state, the states at the moment of each emission
(where the listener is re-entered) included, normal mode on implies that
nothing is accumulated; equivalently a bit is accumulated only while normal
mode is off. -/
theorem normal_mode_has_empty_accumulator (P : Platform) (s : sticky_modifiers_state)
    (hr : Reachable P s) :
    (s.normal_mode = true → s.modifiers_accumulated = 0)
      ∧ (s.modifiers_accumulated ≠ 0 → s.normal_mode = false) := by
  have h := (inv_of_reachable P s hr).2
  refine ⟨h, fun ha => ?_⟩
  cases hm : s.normal_mode with
  | false => rfl
  | true => exact absurd (h hm) ha

/-- C11 in the state at the moment of the first emission of a double tap of
modifier 2, and in the armed state before it. -/
theorem normal_mode_has_empty_accumulator_witness :
    Reachable sample_platform
        { modifiers_pressed := 4, modifiers_accumulated := 0, normal_mode := true }
      ∧ ((true = true → (0 : Nat) = 0) ∧ ((0 : Nat) ≠ 0 → true = false)) :=
  have h1 : Reachable sample_platform
      { modifiers_pressed := 4, modifiers_accumulated := 0, normal_mode := false } :=
    Reachable.after initial_state
      (Call.binding_pressed (sample_binding 2) (sample_binding_event 10)) 1 _ _ _
      Reachable.init rfl
  have h2 : Reachable sample_platform
      { modifiers_pressed := 0, modifiers_accumulated := 4, normal_mode := false } :=
    Reachable.after _
      (Call.binding_released (sample_binding 2) (sample_binding_event 20)) 1 _ _ _ h1 rfl
  have h3 : Reachable sample_platform
      { modifiers_pressed := 4, modifiers_accumulated := 0, normal_mode := true } :=
    Reachable.during _
      (Call.binding_pressed (sample_binding 2) (sample_binding_event 30)) 1 _ _ _
      ⟨BusEvent.raised (modifier_encoded sample_platform 2) true 30,
        { modifiers_pressed := 4, modifiers_accumulated := 0, normal_mode := true }⟩
      h2 rfl (by decide)
  ⟨h3, normal_mode_has_empty_accumulator sample_platform _ h3⟩

/-! ## Nothing but the last release leaves normal mode -/

theorem raise_keeps_normal (d : Deliver)
    (hd : ∀ s eh r s1 tr, s.normal_mode = true → d s eh = some (r, s1, tr) →
      s1.normal_mode = true)
    (P : Platform) (encoded : Nat) (pressed : Bool) (timestamp : Int)
    (s s1 : sticky_modifiers_state) (tr : Trace) (hn : s.normal_mode = true)
    (h : raise_zmk_keycode_state_changed_from_encoded d P encoded pressed timestamp s
      = some (s1, tr)) : s1.normal_mode = true := by
  unfold raise_zmk_keycode_state_changed_from_encoded at h
  cases hx : d s (zmk_event_t.keycode_state_changed
      (zmk_keycode_state_changed_from_encoded P encoded pressed timestamp)) with
  | none => simp [hx] at h
  | some y =>
    obtain ⟨r, s2, tr2⟩ := y
    rw [hx] at h
    simp only [Option.some.injEq, Prod.mk.injEq] at h
    obtain ⟨rfl, -⟩ := h
    exact hd _ _ _ _ _ hn hx

theorem release_copy_keeps_normal (d : Deliver)
    (hd : ∀ s eh r s1 tr, s.normal_mode = true → d s eh = some (r, s1, tr) →
      s1.normal_mode = true)
    (P : Platform) (ev : zmk_keycode_state_changed)
    (s s1 : sticky_modifiers_state) (tr : Trace) (hn : s.normal_mode = true)
    (h : release_copy d P ev s = some (s1, tr)) : s1.normal_mode = true := by
  unfold release_copy at h
  by_cases hr : P.release_reenters = true
  · rw [if_pos hr] at h
    cases hx : d s (zmk_event_t.keycode_state_changed ev) with
    | none => simp [hx] at h
    | some y =>
      obtain ⟨r, s2, tr2⟩ := y
      rw [hx] at h
      simp only [Option.some.injEq, Prod.mk.injEq] at h
      obtain ⟨rfl, -⟩ := h
      exact hd _ _ _ _ _ hn hx
  · rw [if_neg hr] at h
    simp only [Option.some.injEq, Prod.mk.injEq] at h
    obtain ⟨rfl, -⟩ := h
    exact hn

theorem raise_modifiers_loop_keeps_normal (d : Deliver)
    (hd : ∀ s eh r s1 tr, s.normal_mode = true → d s eh = some (r, s1, tr) →
      s1.normal_mode = true)
    (P : Platform) (pressed : Bool) (timestamp : Int) :
    ∀ n m (s s1 : sticky_modifiers_state) (tr : Trace), s.normal_mode = true →
      raise_modifiers_loop d P pressed timestamp n m s = some (s1, tr) →
      s1.normal_mode = true := by
  intro n
  induction n with
  | zero =>
    intro m s s1 tr hn h
    by_cases hm : m = 0
    · simp only [raise_modifiers_loop, hm, if_true, Option.some.injEq, Prod.mk.injEq] at h
      obtain ⟨rfl, -⟩ := h
      exact hn
    · simp [raise_modifiers_loop, hm] at h
  | succ k ih =>
    intro m s s1 tr hn h
    by_cases hm : m = 0
    · simp only [raise_modifiers_loop, hm, if_true, Option.some.injEq, Prod.mk.injEq] at h
      obtain ⟨rfl, -⟩ := h
      exact hn
    · simp only [raise_modifiers_loop, hm, if_false] at h
      cases h1 : raise_zmk_keycode_state_changed_from_encoded d P
          (modifier_encoded P (builtin_ctz m)) pressed timestamp s with
      | none => simp [h1] at h
      | some y =>
        obtain ⟨s2, tr2⟩ := y
        rw [h1] at h
        simp only at h
        have hn2 := raise_keeps_normal d hd P _ _ _ _ _ _ hn h1
        cases h2 : raise_modifiers_loop d P pressed timestamp k
            ((m ^^^ (1 <<< builtin_ctz m)) % 256) s2 with
        | none => simp [h2] at h
        | some z =>
          obtain ⟨s3, tr3⟩ := z
          rw [h2] at h
          simp only [Option.some.injEq, Prod.mk.injEq] at h
          obtain ⟨rfl, -⟩ := h
          exact ih _ _ _ _ hn2 h2

theorem listener_keeps_normal (P : Platform) :
    ∀ n s eh r s1 tr, s.normal_mode = true →
      sticky_modifiers_keycode_state_changed_listener P n s eh = some (r, s1, tr) →
      s1.normal_mode = true := by
  intro n
  induction n with
  | zero => intro s eh r s1 tr _ h; simp [sticky_modifiers_keycode_state_changed_listener] at h
  | succ k ih =>
    intro s eh r s1 tr hn h
    cases eh with
    | other =>
      rw [listener_other] at h
      simp only [Option.some.injEq, Prod.mk.injEq] at h
      obtain ⟨-, rfl, -⟩ := h
      exact hn
    | keycode_state_changed ev =>
      cases hs : ev.state with
      | false =>
        rw [listener_release_event P _ s ev hs] at h
        simp only [Option.some.injEq, Prod.mk.injEq] at h
        obtain ⟨-, rfl, -⟩ := h
        exact hn
      | true =>
        rw [listener_pressed_unfold P _ s ev hs] at h
        have h1 : ¬ (s.modifiers_pressed ≠ 0 ∧ s.normal_mode = false) := by
          rw [hn]; simp
        rw [if_neg h1] at h
        by_cases h2 : s.modifiers_accumulated ≠ 0
        · rw [if_pos h2] at h
          cases hr1 : raise_modifiers (sticky_modifiers_keycode_state_changed_listener P k) P
              s.modifiers_accumulated true ev.timestamp { s with modifiers_accumulated := 0 } with
          | none => simp [hr1] at h
          | some y1 =>
            obtain ⟨s2, tr1⟩ := y1
            rw [hr1] at h
            simp only at h
            have hn2 : s2.normal_mode = true := by
              refine raise_modifiers_loop_keeps_normal _ ih P _ _ _ _ _ _ _ ?_ hr1
              exact hn
            cases hr2 : release_copy (sticky_modifiers_keycode_state_changed_listener P k) P
                ev s2 with
            | none => simp [hr2] at h
            | some y2 =>
              obtain ⟨s3, tr2⟩ := y2
              rw [hr2] at h
              simp only at h
              have hn3 : s3.normal_mode = true :=
                release_copy_keeps_normal _ ih P _ _ _ _ hn2 hr2
              cases hr3 : raise_modifiers (sticky_modifiers_keycode_state_changed_listener P k)
                  P s.modifiers_accumulated false ev.timestamp s3 with
              | none => simp [hr3] at h
              | some y3 =>
                obtain ⟨s4, tr3⟩ := y3
                rw [hr3] at h
                simp only [Option.some.injEq, Prod.mk.injEq] at h
                obtain ⟨-, rfl, -⟩ := h
                refine raise_modifiers_loop_keeps_normal _ ih P _ _ _ _ _ _ _ ?_ hr3
                exact hn3
        · rw [if_neg h2] at h
          simp only [Option.some.injEq, Prod.mk.injEq] at h
          obtain ⟨-, rfl, -⟩ := h
          exact hn

theorem pressed_keeps_normal (P : Platform) (fuel : Nat) (s : sticky_modifiers_state)
    (b : zmk_behavior_binding) (e : zmk_behavior_binding_event) (r : zmk_behavior_result)
    (s1 : sticky_modifiers_state) (tr : Trace) (hn : s.normal_mode = true)
    (h : on_sticky_modifiers_binding_pressed P fuel s b e = some (r, s1, tr)) :
    s1.normal_mode = true := by
  unfold on_sticky_modifiers_binding_pressed at h
  simp only [hn, if_true] at h
  split at h
  · simp at h
  · rename_i s2 tr2 hr
    simp only [Option.some.injEq, Prod.mk.injEq] at h
    obtain ⟨-, rfl, -⟩ := h
    refine raise_keeps_normal _ (listener_keeps_normal P fuel) P _ _ _ _ _ _ ?_ hr
    rfl

theorem released_leaves_normal_only_when_empty (P : Platform) (fuel : Nat)
    (s : sticky_modifiers_state) (b : zmk_behavior_binding) (e : zmk_behavior_binding_event)
    (r : zmk_behavior_result) (s1 : sticky_modifiers_state) (tr : Trace)
    (hn : s.normal_mode = true) (hn1 : s1.normal_mode = false)
    (h : on_sticky_modifiers_binding_released P fuel s b e = some (r, s1, tr)) :
    s1.modifiers_pressed = 0 := by
  unfold on_sticky_modifiers_binding_released at h
  simp only [hn, if_true] at h
  split at h
  · simp at h
  · rename_i s2 tr2 hr
    have hn2 : s2.normal_mode = true := by
      refine raise_keeps_normal _ (listener_keeps_normal P fuel) P _ _ _ _ _ _ ?_ hr
      rfl
    split at h
    · rename_i h0
      simp only [Option.some.injEq, Prod.mk.injEq] at h
      obtain ⟨-, rfl, -⟩ := h
      exact h0
    · simp only [Option.some.injEq, Prod.mk.injEq] at h
      obtain ⟨-, rfl, -⟩ := h
      rw [hn2] at hn1
      exact Bool.noConfusion hn1

/-- C12: for every state and every single call of binding-pressed,
binding-released or the listener, at any re-entry depth (so for a nested
invocation of the listener as well): if normal mode is on before the call
and off after it, the call is a binding-released and `modifiers_pressed` is
empty after it. -/
theorem normal_mode_left_only_by_last_release (P : Platform) (fuel : Nat)
    (s : sticky_modifiers_state) (c : Call) (r : Outcome) (s1 : sticky_modifiers_state)
    (tr : Trace) (h : call P fuel s c = some (r, s1, tr)) (hn : s.normal_mode = true)
    (hn1 : s1.normal_mode = false) :
    (∃ b e, c = Call.binding_released b e) ∧ s1.modifiers_pressed = 0 := by
  cases c with
  | binding_pressed b e =>
    unfold call at h
    simp only at h
    cases hc : on_sticky_modifiers_binding_pressed P fuel s b e with
    | none => simp [hc] at h
    | some y =>
      obtain ⟨r1, s2, tr2⟩ := y
      rw [hc] at h
      simp only [Option.some.injEq, Prod.mk.injEq] at h
      obtain ⟨-, rfl, -⟩ := h
      rw [pressed_keeps_normal P fuel s b e r1 _ _ hn hc] at hn1
      exact Bool.noConfusion hn1
  | binding_released b e =>
    unfold call at h
    simp only at h
    cases hc : on_sticky_modifiers_binding_released P fuel s b e with
    | none => simp [hc] at h
    | some y =>
      obtain ⟨r1, s2, tr2⟩ := y
      rw [hc] at h
      simp only [Option.some.injEq, Prod.mk.injEq] at h
      obtain ⟨-, rfl, -⟩ := h
      exact ⟨⟨b, e, rfl⟩, released_leaves_normal_only_when_empty P fuel s b e r1 _ _ hn hn1 hc⟩
  | listener eh =>
    unfold call at h
    simp only at h
    cases hc : sticky_modifiers_keycode_state_changed_listener P fuel s eh with
    | none => simp [hc] at h
    | some y =>
      obtain ⟨r1, s2, tr2⟩ := y
      rw [hc] at h
      simp only [Option.some.injEq, Prod.mk.injEq] at h
      obtain ⟨-, rfl, -⟩ := h
      rw [listener_keeps_normal P fuel s eh r1 _ _ hn hc] at hn1
      exact Bool.noConfusion hn1

/-- C12 at the release of modifier 2, the only sticky key held in normal
mode. -/
theorem normal_mode_left_only_by_last_release_witness :
    (call sample_platform 1
          { modifiers_pressed := 4, modifiers_accumulated := 0, normal_mode := true }
          (Call.binding_released (sample_binding 2) (sample_binding_event 40))
        = some (Outcome.behavior zmk_behavior_result.ZMK_BEHAVIOR_OPAQUE,
            { modifiers_pressed := 0, modifiers_accumulated := 0, normal_mode := false },
            [⟨BusEvent.raised (sample_binding 2).param1 false 40,
              { modifiers_pressed := 0, modifiers_accumulated := 0, normal_mode := true }⟩])
        ∧ true = true ∧ false = false)
      ∧ ((∃ b e, Call.binding_released (sample_binding 2) (sample_binding_event 40)
            = Call.binding_released b e) ∧ (0 : Nat) = 0) :=
  ⟨⟨by decide, rfl, rfl⟩,
    normal_mode_left_only_by_last_release sample_platform 1
      { modifiers_pressed := 4, modifiers_accumulated := 0, normal_mode := true }
      (Call.binding_released (sample_binding 2) (sample_binding_event 40))
      (Outcome.behavior zmk_behavior_result.ZMK_BEHAVIOR_OPAQUE)
      { modifiers_pressed := 0, modifiers_accumulated := 0, normal_mode := false }
      [⟨BusEvent.raised (sample_binding 2).param1 false 40,
        { modifiers_pressed := 0, modifiers_accumulated := 0, normal_mode := true }⟩]
      (by decide) rfl rfl⟩

theorem set_bits_nodup (m : Nat) : (set_bits m).Nodup :=
  List.Pairwise.imp (fun h => Nat.ne_of_lt h) (set_bits_pairwise m)

/-- C13: in the trigger branch of the listener (pressed event, non-empty
8-bit accumulator, and no sticky key held or normal mode on) a re-entry depth
of two is enough at every fuel; at the moment of every emission the state is
the entry state with `modifiers_accumulated` already 0, so the listener
re-entered with that emission returns "bubble", emits nothing and changes
nothing; and the emitted events are one press per accumulated modifier, the
duplicate, one release per accumulated modifier, over a duplicate-free list
of exactly the accumulated indices. -/
theorem trigger_clears_accumulator_before_emitting (P : Platform) (fuel : Nat)
    (s : sticky_modifiers_state) (K : zmk_keycode_state_changed)
    (hq : s.modifiers_pressed = 0 ∨ s.normal_mode = true)
    (hA : s.modifiers_accumulated ≠ 0) (hlt : s.modifiers_accumulated < 256)
    (hK : K.state = true) :
    sticky_modifiers_keycode_state_changed_listener P (fuel + 2) s
          (zmk_event_t.keycode_state_changed K)
        = some (zmk_ev_result.ZMK_EV_EVENT_HANDLED,
            { s with modifiers_accumulated := 0 },
            modifier_emissions P true K.timestamp { s with modifiers_accumulated := 0 }
                (set_bits s.modifiers_accumulated)
              ++ [⟨BusEvent.released K, { s with modifiers_accumulated := 0 }⟩]
              ++ modifier_emissions P false K.timestamp { s with modifiers_accumulated := 0 }
                (set_bits s.modifiers_accumulated))
      ∧ (∀ e ∈ modifier_emissions P true K.timestamp { s with modifiers_accumulated := 0 }
                (set_bits s.modifiers_accumulated)
              ++ [⟨BusEvent.released K, { s with modifiers_accumulated := 0 }⟩]
              ++ modifier_emissions P false K.timestamp { s with modifiers_accumulated := 0 }
                (set_bits s.modifiers_accumulated),
          e.at_state = { s with modifiers_accumulated := 0 }
            ∧ e.at_state.modifiers_accumulated = 0
            ∧ ∀ n, sticky_modifiers_keycode_state_changed_listener P (n + 1) e.at_state
                (delivered P e.event)
              = some (zmk_ev_result.ZMK_EV_EVENT_BUBBLE, e.at_state, []))
      ∧ (set_bits s.modifiers_accumulated).Nodup
      ∧ ∀ i, i ∈ set_bits s.modifiers_accumulated ↔ s.modifiers_accumulated.testBit i = true := by
  refine ⟨listener_trigger P fuel s K hq hA hlt hK, fun e he => ?_, set_bits_nodup _,
    mem_set_bits _ hlt⟩
  have hst : e.at_state = { s with modifiers_accumulated := 0 } := by
    simp only [List.append_assoc, List.mem_append, List.mem_singleton, List.mem_cons,
      List.singleton_append] at he
    rcases he with he | he | he
    · exact at_state_of_mem_modifier_emissions P _ _ _ _ e he
    · rw [he]
    · exact at_state_of_mem_modifier_emissions P _ _ _ _ e he
  refine ⟨hst, by rw [hst], fun n => ?_⟩
  exact listener_quiet P n _ _ (by rw [hst]; exact ⟨rfl, hq⟩)

/-- C13 with control and shift accumulated on the sample platform. -/
theorem trigger_clears_accumulator_before_emitting_witness :
    (((0 : Nat) = 0 ∨ false = true) ∧ (3 : Nat) ≠ 0 ∧ (3 : Nat) < 256
        ∧ (sample_key 4 42).state = true)
      ∧ sticky_modifiers_keycode_state_changed_listener sample_platform (0 + 2)
          { modifiers_pressed := 0, modifiers_accumulated := 3, normal_mode := false }
          (zmk_event_t.keycode_state_changed (sample_key 4 42))
        = some (zmk_ev_result.ZMK_EV_EVENT_HANDLED,
            { modifiers_pressed := 0, modifiers_accumulated := 0, normal_mode := false },
            modifier_emissions sample_platform true (sample_key 4 42).timestamp
                { modifiers_pressed := 0, modifiers_accumulated := 0, normal_mode := false }
                (set_bits 3)
              ++ [⟨BusEvent.released (sample_key 4 42),
                  { modifiers_pressed := 0, modifiers_accumulated := 0, normal_mode := false }⟩]
              ++ modifier_emissions sample_platform false (sample_key 4 42).timestamp
                { modifiers_pressed := 0, modifiers_accumulated := 0, normal_mode := false }
                (set_bits 3)) :=
  ⟨⟨Or.inl rfl, by decide, by decide, rfl⟩,
    (trigger_clears_accumulator_before_emitting sample_platform 0
      { modifiers_pressed := 0, modifiers_accumulated := 3, normal_mode := false }
      (sample_key 4 42) (Or.inl rfl) (by decide) (by decide) rfl).1⟩

theorem bit_frame_facts : ∀ a, a < 256 → ∀ i, i < 8 →
    (a.testBit i = false → a &&& 1 <<< i = 0)
      ∧ (a ||| 1 <<< i) % 256 = a ||| 1 <<< i
      ∧ (a ^^^ 1 <<< i) % 256 = a ^^^ 1 <<< i := by
  intro a ha i hi
  have h1 : (1 : Nat) <<< i < 2 ^ 8 := (one_shift_facts i hi).2.2.2.2.2.2
  refine ⟨fun h => ?_, Nat.mod_eq_of_lt (Nat.or_lt_two_pow ha h1),
    Nat.mod_eq_of_lt (Nat.xor_lt_two_pow ha h1)⟩
  apply Nat.eq_of_testBit_eq
  intro j
  rw [Nat.testBit_and, Nat.one_shiftLeft, Nat.testBit_two_pow, Nat.zero_testBit]
  by_cases hij : i = j
  · subst hij; simp [h]
  · simp [hij]

theorem testBit_or_bit (a i j : Nat) :
    (a ||| 1 <<< i).testBit j = (a.testBit j || decide (j = i)) := by
  rw [Nat.testBit_or, Nat.one_shiftLeft, Nat.testBit_two_pow]
  by_cases hij : i = j
  · subst hij; simp
  · have : ¬ j = i := fun h => hij h.symm
    simp [hij, this]

theorem testBit_xor_bit (a i j : Nat) :
    (a ^^^ 1 <<< i).testBit j = (a.testBit j ^^ decide (j = i)) := by
  rw [Nat.testBit_xor, Nat.one_shiftLeft, Nat.testBit_two_pow]
  by_cases hij : i = j
  · subst hij; simp
  · have : ¬ j = i := fun h => hij h.symm
    simp [hij, this]

/-- C14: with normal mode off and both sets 8-bit values, for a binding of
modifier `i` (0..7): binding-released in a state `s` whose bit `i` of
`modifiers_pressed` is set emits nothing, clears bit `i` of
`modifiers_pressed`, sets bit `i` of `modifiers_accumulated` and changes no
other bit nor `normal_mode`; binding-pressed in a state `s2` whose bit `i` is
not accumulated emits nothing and changes only bit `i` of
`modifiers_pressed`, which it sets. -/
theorem release_arms_press_only_records (P : Platform) (fuel i : Nat)
    (s s2 : sticky_modifiers_state) (b : zmk_behavior_binding)
    (e : zmk_behavior_binding_event) (hi : i < 8) (hb : b.param1 &&& 0xF = i)
    (hv : valid s) (hn : s.normal_mode = false) (hheld : s.modifiers_pressed.testBit i = true)
    (hv2 : valid s2) (hn2 : s2.normal_mode = false)
    (hfree : s2.modifiers_accumulated.testBit i = false) :
    (observed (on_sticky_modifiers_binding_released P fuel s b e)
        = some (zmk_behavior_result.ZMK_BEHAVIOR_OPAQUE,
            { modifiers_pressed := s.modifiers_pressed ^^^ 1 <<< i
              modifiers_accumulated := s.modifiers_accumulated ||| 1 <<< i
              normal_mode := false }, [])
      ∧ (∀ j, (s.modifiers_pressed ^^^ 1 <<< i).testBit j
            = (s.modifiers_pressed.testBit j && !decide (j = i)))
      ∧ (∀ j, (s.modifiers_accumulated ||| 1 <<< i).testBit j
            = (s.modifiers_accumulated.testBit j || decide (j = i))))
      ∧ (observed (on_sticky_modifiers_binding_pressed P fuel s2 b e)
        = some (zmk_behavior_result.ZMK_BEHAVIOR_OPAQUE,
            { modifiers_pressed := s2.modifiers_pressed ||| 1 <<< i
              modifiers_accumulated := s2.modifiers_accumulated
              normal_mode := false }, [])
      ∧ (∀ j, (s2.modifiers_pressed ||| 1 <<< i).testBit j
            = (s2.modifiers_pressed.testBit j || decide (j = i)))) := by
  have hbit := modifier_bit_of_index b i hi hb
  obtain ⟨-, -, hx⟩ := bit_frame_facts _ hv.1 i hi
  obtain ⟨-, ho, -⟩ := bit_frame_facts _ hv.2 i hi
  obtain ⟨-, ho2, -⟩ := bit_frame_facts _ hv2.1 i hi
  obtain ⟨hz, -, -⟩ := bit_frame_facts _ hv2.2 i hi
  refine ⟨⟨?_, fun j => ?_, testBit_or_bit _ i⟩, ?_, testBit_or_bit _ i⟩
  · rw [released_sticky P fuel s b e hn, observed_some, hbit, hx, ho, events_nil]
  · rw [testBit_xor_bit]
    by_cases hj : j = i
    · subst hj; simp [hheld]
    · simp [hj]
  · obtain ⟨p, a, m⟩ := s2
    simp only at hn2 hfree hz ho2
    subst hn2
    rw [pressed_sticky_silent P fuel _ b e rfl (by rw [hbit]; exact hz hfree), observed_some,
      hbit]
    simp only [ho2, events_nil]

/-- C14 at modifier 1: released with control and shift held, pressed with
only control accumulated. -/
theorem release_arms_press_only_records_witness :
    (1 < 8 ∧ (sample_binding 1).param1 &&& 0xF = 1
        ∧ valid { modifiers_pressed := 3, modifiers_accumulated := 4, normal_mode := false }
        ∧ false = false ∧ (3 : Nat).testBit 1 = true
        ∧ valid { modifiers_pressed := 4, modifiers_accumulated := 1, normal_mode := false }
        ∧ false = false ∧ (1 : Nat).testBit 1 = false)
      ∧ observed (on_sticky_modifiers_binding_released sample_platform 0
            { modifiers_pressed := 3, modifiers_accumulated := 4, normal_mode := false }
            (sample_binding 1) (sample_binding_event 10))
        = some (zmk_behavior_result.ZMK_BEHAVIOR_OPAQUE,
            { modifiers_pressed := 3 ^^^ 1 <<< 1
              modifiers_accumulated := 4 ||| 1 <<< 1
              normal_mode := false }, [])
      ∧ observed (on_sticky_modifiers_binding_pressed sample_platform 0
            { modifiers_pressed := 4, modifiers_accumulated := 1, normal_mode := false }
            (sample_binding 1) (sample_binding_event 10))
        = some (zmk_behavior_result.ZMK_BEHAVIOR_OPAQUE,
            { modifiers_pressed := 4 ||| 1 <<< 1
              modifiers_accumulated := 1
              normal_mode := false }, []) :=
  have h := release_arms_press_only_records sample_platform 0 1
    { modifiers_pressed := 3, modifiers_accumulated := 4, normal_mode := false }
    { modifiers_pressed := 4, modifiers_accumulated := 1, normal_mode := false }
    (sample_binding 1) (sample_binding_event 10) (by decide) (by decide) (by decide) rfl
    (by decide) (by decide) rfl (by decide)
  ⟨⟨by decide, by decide, by decide, rfl, by decide, by decide, rfl, by decide⟩,
    h.1.1, h.2.1⟩

theorem distinct_bits_disjoint (i j : Nat) (hi : i < 8) (hj : j < 8) (hij : i ≠ j) :
    (1 <<< i) &&& ((1 <<< j) % 256) = 0 := by
  interval_cases i <;> interval_cases j <;> first | exact absurd rfl hij | decide

/-- C16: from the initial state, for distinct modifiers `i` and `j` (0..7):
press and release of the sticky key of `i`, then press of the sticky key of
`j`, emit nothing and leave `i` accumulated and `j` held; the listener then
answers a pressed keycode event `K` by entering normal mode, emitting exactly
one event, the press of modifier `j` at `K`'s timestamp, dropping the
accumulated `i` without any event for it, and returning "bubble". -/
theorem held_modifier_discards_armed_one (P : Platform) (fuel i j : Nat)
    (bi bj : zmk_behavior_binding) (e1 e2 e3 : zmk_behavior_binding_event)
    (K : zmk_keycode_state_changed) (hi : i < 8) (hj : j < 8) (hij : i ≠ j)
    (hbi : bi.param1 &&& 0xF = i) (hbj : bj.param1 &&& 0xF = j) (hK : K.state = true) :
    observed (on_sticky_modifiers_binding_pressed P fuel initial_state bi e1)
        = some (zmk_behavior_result.ZMK_BEHAVIOR_OPAQUE,
            { modifiers_pressed := 1 <<< i, modifiers_accumulated := 0, normal_mode := false },
            [])
      ∧ observed (on_sticky_modifiers_binding_released P fuel
            { modifiers_pressed := 1 <<< i, modifiers_accumulated := 0, normal_mode := false }
            bi e2)
        = some (zmk_behavior_result.ZMK_BEHAVIOR_OPAQUE,
            { modifiers_pressed := 0, modifiers_accumulated := 1 <<< i, normal_mode := false },
            [])
      ∧ observed (on_sticky_modifiers_binding_pressed P fuel
            { modifiers_pressed := 0, modifiers_accumulated := 1 <<< i, normal_mode := false }
            bj e3)
        = some (zmk_behavior_result.ZMK_BEHAVIOR_OPAQUE,
            { modifiers_pressed := 1 <<< j, modifiers_accumulated := 1 <<< i,
              normal_mode := false }, [])
      ∧ observed (sticky_modifiers_keycode_state_changed_listener P (fuel + 2)
            { modifiers_pressed := 1 <<< j, modifiers_accumulated := 1 <<< i,
              normal_mode := false }
            (zmk_event_t.keycode_state_changed K))
        = some (zmk_ev_result.ZMK_EV_EVENT_BUBBLE,
            { modifiers_pressed := 1 <<< j, modifiers_accumulated := 0, normal_mode := true },
            [BusEvent.raised (modifier_encoded P j) true K.timestamp]) := by
  have hbiti := modifier_bit_of_index bi i hi hbi
  have hbitj := modifier_bit_of_index bj j hj hbj
  obtain ⟨f1, f2, f3, f4, f5, f6, f7⟩ := one_shift_facts i hi
  obtain ⟨g1, g2, g3, g4, g5, g6, g7⟩ := one_shift_facts j hj
  have hd := distinct_bits_disjoint i j hi hj hij
  rw [g1] at hd
  refine ⟨?_, ?_, ?_, ?_⟩
  · rw [pressed_sticky_silent P fuel initial_state bi e1 rfl (by rw [hbiti]; exact f4),
      observed_some, hbiti]
    simp only [initial_state, f2, events_nil]
  · rw [released_sticky P fuel _ bi e2 rfl, observed_some, hbiti]
    simp only [f2, f3, events_nil]
  · rw [pressed_sticky_silent P fuel _ bj e3 rfl (by rw [hbitj]; exact hd), observed_some,
      hbitj]
    simp only [g2, events_nil]
  · rw [listener_enter_normal P fuel _ K g6 g7 rfl hK, observed_some]
    simp only [events_modifier_emissions, set_bits_single j hj, modifier_events, List.map_cons,
      List.map_nil]

/-- C16 with control armed and shift held on the sample platform. -/
theorem held_modifier_discards_armed_one_witness :
    (0 < 8 ∧ 1 < 8 ∧ (0 : Nat) ≠ 1 ∧ (sample_binding 0).param1 &&& 0xF = 0
        ∧ (sample_binding 1).param1 &&& 0xF = 1 ∧ (sample_key 4 42).state = true)
      ∧ observed (sticky_modifiers_keycode_state_changed_listener sample_platform (0 + 2)
            { modifiers_pressed := 1 <<< 1, modifiers_accumulated := 1 <<< 0,
              normal_mode := false }
            (zmk_event_t.keycode_state_changed (sample_key 4 42)))
        = some (zmk_ev_result.ZMK_EV_EVENT_BUBBLE,
            { modifiers_pressed := 1 <<< 1, modifiers_accumulated := 0, normal_mode := true },
            [BusEvent.raised (modifier_encoded sample_platform 1) true
              (sample_key 4 42).timestamp]) :=
  ⟨⟨by decide, by decide, by decide, by decide, by decide, rfl⟩,
    (held_modifier_discards_armed_one sample_platform 0 0 1 (sample_binding 0)
      (sample_binding 1) (sample_binding_event 10) (sample_binding_event 20)
      (sample_binding_event 30) (sample_key 4 42) (by decide) (by decide) (by decide)
      (by decide) (by decide) rfl).2.2.2⟩

set_option maxRecDepth 100000 in
theorem ctz_indices_exact_fuel : ∀ m, m < 256 →
    ctz_indices (set_bits m).length m = some (set_bits m)
      ∧ ∀ n, n < (set_bits m).length → ctz_indices n m = none := by
  decide

theorem raise_null_deliver (P : Platform) (pressed : Bool) (timestamp : Int)
    (s : sticky_modifiers_state) (encoded : Nat) :
    raise_zmk_keycode_state_changed_from_encoded null_deliver P encoded pressed timestamp s
      = some (s, [⟨BusEvent.raised encoded pressed timestamp, s⟩]) := rfl

theorem raise_modifiers_loop_answers (d : Deliver) (hd : ∀ s eh, (d s eh).isSome = true)
    (P : Platform) (pressed : Bool) (timestamp : Int) :
    ∀ n m s, (ctz_indices n m).isSome = true →
      (raise_modifiers_loop d P pressed timestamp n m s).isSome = true := by
  intro n
  induction n with
  | zero =>
    intro m s h
    by_cases hm : m = 0
    · simp [raise_modifiers_loop, hm]
    · simp [ctz_indices, hm] at h
  | succ k ih =>
    intro m s h
    by_cases hm : m = 0
    · simp [raise_modifiers_loop, hm]
    · simp only [ctz_indices, hm, if_false, Option.isSome_map'] at h
      simp only [raise_modifiers_loop, hm, if_false,
        raise_zmk_keycode_state_changed_from_encoded]
      have h1 := hd s (zmk_event_t.keycode_state_changed
        (zmk_keycode_state_changed_from_encoded P (modifier_encoded P (builtin_ctz m)) pressed
          timestamp))
      cases hx : d s (zmk_event_t.keycode_state_changed
        (zmk_keycode_state_changed_from_encoded P (modifier_encoded P (builtin_ctz m)) pressed
          timestamp)) with
      | none => rw [hx] at h1; exact Bool.noConfusion h1
      | some y =>
        obtain ⟨r, s1, tr1⟩ := y
        simp only
        have h2 := ih ((m ^^^ (1 <<< builtin_ctz m)) % 256) s1 h
        cases hy : raise_modifiers_loop d P pressed timestamp k
            ((m ^^^ (1 <<< builtin_ctz m)) % 256) s1 with
        | none => rw [hy] at h2; exact Bool.noConfusion h2
        | some z => rfl

/-- C18: for every 8-bit mask `m`, flag `p` and timestamp `t`:
`raise_modifiers` returns whenever every delivery returns; on a bus that
hands nothing back it leaves the state alone and emits exactly one event per
set bit of `m`, in strictly increasing bit index `i`, each with the encoded
keycode of modifier `i`, state `p` and timestamp `t`; its loop finishes with
exactly as many iterations as `m` has set bits (that many are enough, fewer
are not), so with none when `m = 0`. -/
theorem raise_modifiers_visits_set_bits_in_order (P : Platform) (m : Nat) (p : Bool) (t : Int)
    (s : sticky_modifiers_state) (hm : m < 256) :
    (∀ d : Deliver, (∀ s1 eh, (d s1 eh).isSome = true) →
        (raise_modifiers d P m p t s).isSome = true)
      ∧ (raise_modifiers null_deliver P m p t s).map (fun x => (x.1, events x.2))
        = some (s, (set_bits m).map (fun i => BusEvent.raised (modifier_encoded P i) p t))
      ∧ List.Pairwise (fun i j => i < j) (set_bits m)
      ∧ (∀ i, i ∈ set_bits m ↔ m.testBit i = true)
      ∧ (raise_modifiers_loop null_deliver P p t (set_bits m).length m s).isSome = true
      ∧ (∀ n, n < (set_bits m).length → raise_modifiers_loop null_deliver P p t n m s = none)
      ∧ set_bits 0 = [] := by
  have hloop := raise_modifiers_loop_still null_deliver P p t s
    (fun e => raise_null_deliver P p t s e)
  obtain ⟨hex, hless⟩ := ctz_indices_exact_fuel m hm
  refine ⟨fun d hd => ?_, ?_, set_bits_pairwise m, mem_set_bits m hm, ?_, fun n hn => ?_, rfl⟩
  · exact raise_modifiers_loop_answers d hd P p t 8 m s
      (by rw [ctz_indices_eq_set_bits m hm]; rfl)
  · unfold raise_modifiers
    rw [hloop, ctz_indices_eq_set_bits m hm]
    simp only [Option.map_some', events_modifier_emissions, modifier_events]
  · rw [hloop, hex]; rfl
  · rw [hloop, hless n hn]; rfl

/-- C18 at the mask with bits 0 and 2 set. -/
theorem raise_modifiers_visits_set_bits_in_order_witness :
    (5 : Nat) < 256
      ∧ (raise_modifiers null_deliver sample_platform 5 true 42 initial_state).map
          (fun x => (x.1, events x.2))
        = some (initial_state,
            (set_bits 5).map (fun i => BusEvent.raised (modifier_encoded sample_platform i)
              true 42)) :=
  ⟨by decide,
    (raise_modifiers_visits_set_bits_in_order sample_platform 5 true 42 initial_state
      (by decide)).2.1⟩

theorem high_index_bit_is_zero (b : zmk_behavior_binding) (h : 8 ≤ b.param1 &&& 0xF) :
    modifier_bit_of b = 0 := by
  have hle : b.param1 &&& 0xF ≤ 15 := Nat.and_le_right
  unfold modifier_bit_of
  generalize b.param1 &&& 0xF = k at h hle
  interval_cases k <;> rfl

/-- C19: for a binding whose `param1` has its low four bits in 8..15 the
modifier bit, stored in eight bits, is 0; in every state with 8-bit sets and
normal mode off, binding-pressed and binding-released then leave
`modifiers_pressed`, `modifiers_accumulated` and `normal_mode` as they are
and emit nothing. -/
theorem out_of_range_index_touches_nothing (P : Platform) (fuel : Nat)
    (s : sticky_modifiers_state) (b : zmk_behavior_binding) (e : zmk_behavior_binding_event)
    (hidx : 8 ≤ b.param1 &&& 0xF) (hv : valid s) (hn : s.normal_mode = false) :
    (1 <<< ((b.param1 &&& 0xF) % 256)) % 256 = 0
      ∧ observed (on_sticky_modifiers_binding_pressed P fuel s b e)
        = some (zmk_behavior_result.ZMK_BEHAVIOR_OPAQUE, s, [])
      ∧ observed (on_sticky_modifiers_binding_released P fuel s b e)
        = some (zmk_behavior_result.ZMK_BEHAVIOR_OPAQUE, s, []) := by
  have hbit := high_index_bit_is_zero b hidx
  obtain ⟨p, a, m⟩ := s
  obtain ⟨hp, ha⟩ := hv
  simp only at hn hp ha
  subst hn
  refine ⟨hbit, ?_, ?_⟩
  · rw [pressed_sticky_silent P fuel _ b e rfl (by rw [hbit]; exact Nat.and_zero _),
      observed_some, hbit]
    simp only [Nat.or_zero, Nat.mod_eq_of_lt hp, events_nil]
  · rw [released_sticky P fuel _ b e rfl, observed_some, hbit]
    simp only [Nat.or_zero, Nat.xor_zero, Nat.mod_eq_of_lt hp, Nat.mod_eq_of_lt ha, events_nil]

/-- C19 at a binding with low nibble 9, one key held and one armed. -/
theorem out_of_range_index_touches_nothing_witness :
    (8 ≤ (zmk_behavior_binding.mk 0x070009 0).param1 &&& 0xF
        ∧ valid { modifiers_pressed := 1, modifiers_accumulated := 2, normal_mode := false }
        ∧ false = false)
      ∧ (1 <<< (((zmk_behavior_binding.mk 0x070009 0).param1 &&& 0xF) % 256)) % 256 = 0
      ∧ observed (on_sticky_modifiers_binding_pressed sample_platform 0
            { modifiers_pressed := 1, modifiers_accumulated := 2, normal_mode := false }
            (zmk_behavior_binding.mk 0x070009 0) (sample_binding_event 10))
        = some (zmk_behavior_result.ZMK_BEHAVIOR_OPAQUE,
            { modifiers_pressed := 1, modifiers_accumulated := 2, normal_mode := false }, [])
      ∧ observed (on_sticky_modifiers_binding_released sample_platform 0
            { modifiers_pressed := 1, modifiers_accumulated := 2, normal_mode := false }
            (zmk_behavior_binding.mk 0x070009 0) (sample_binding_event 10))
        = some (zmk_behavior_result.ZMK_BEHAVIOR_OPAQUE,
            { modifiers_pressed := 1, modifiers_accumulated := 2, normal_mode := false }, []) :=
  ⟨⟨by decide, by decide, rfl⟩,
    out_of_range_index_touches_nothing sample_platform 0
      { modifiers_pressed := 1, modifiers_accumulated := 2, normal_mode := false }
      (zmk_behavior_binding.mk 0x070009 0) (sample_binding_event 10) (by decide) (by decide)
      rfl⟩

/-! ## Calls in closed form -/

theorem call_closed (P : Platform) (fuel : Nat) (s : sticky_modifiers_state) (c : Call)
    (hI : Inv s) :
    ∃ r s1 tr, call P (fuel + 2) s c = some (r, s1, tr) ∧ s1 = step_state s c
      ∧ events tr = step_events P s c := by
  obtain ⟨⟨hp, ha⟩, hna⟩ := hI
  cases c with
  | binding_pressed b e =>
    cases hm : s.normal_mode with
    | true =>
      refine ⟨_, _, _, call_pressed_of P _ s b e _ _ _
        (pressed_normal P (fuel + 1) s b e hm (hna hm)), ?_, ?_⟩
      · simp [step_state, hm]
      · simp [step_events, hm, events_singleton]
    | false =>
      by_cases hb : s.modifiers_accumulated &&& modifier_bit_of b = 0
      · refine ⟨_, _, _, call_pressed_of P _ s b e _ _ _
          (pressed_sticky_silent P _ s b e hm hb), ?_, ?_⟩
        · simp [step_state, hm, hb]
        · simp [step_events, hm, hb, events_nil]
      · refine ⟨_, _, _, call_pressed_of P _ s b e _ _ _
          (pressed_double_tap P (fuel + 1) s b e hm hb), ?_, ?_⟩
        · simp [step_state, hm, hb]
        · simp [step_events, hm, hb, events_append, events_modifier_emissions]
  | binding_released b e =>
    cases hm : s.normal_mode with
    | true =>
      refine ⟨_, _, _, call_released_of P _ s b e _ _ _
        (released_normal P (fuel + 1) s b e hm), ?_, ?_⟩
      · simp [step_state, hm]
      · simp [step_events, hm, events_singleton]
    | false =>
      refine ⟨_, _, _, call_released_of P _ s b e _ _ _ (released_sticky P _ s b e hm), ?_, ?_⟩
      · simp [step_state, hm]
      · simp [step_events, hm, events_nil]
  | listener eh =>
    cases eh with
    | other =>
      exact ⟨_, _, _, call_listener_of P _ s _ _ _ _ (listener_other P _ s), rfl, rfl⟩
    | keycode_state_changed ev =>
      cases hs : ev.state with
      | false =>
        refine ⟨_, _, _, call_listener_of P _ s _ _ _ _ (listener_release_event P _ s ev hs), ?_, ?_⟩
        · simp [step_state, hs]
        · simp [step_events, hs, events_nil]
      | true =>
        by_cases h1 : s.modifiers_pressed ≠ 0 ∧ s.normal_mode = false
        · refine ⟨_, _, _, call_listener_of P _ s _ _ _ _
            (listener_enter_normal P fuel s ev h1.1 hp h1.2 hs), ?_, ?_⟩
          · simp [step_state, hs, h1.1, h1.2]
          · simp [step_events, hs, h1.1, h1.2, events_modifier_emissions]
        · have hq : s.modifiers_pressed = 0 ∨ s.normal_mode = true := by
            by_cases h0 : s.modifiers_pressed = 0
            · exact Or.inl h0
            · right
              cases hm : s.normal_mode with
              | true => rfl
              | false => exact absurd ⟨h0, hm⟩ h1
          by_cases h2 : s.modifiers_accumulated ≠ 0
          · refine ⟨_, _, _, call_listener_of P _ s _ _ _ _
              (listener_trigger P fuel s ev hq h2 ha hs), ?_, ?_⟩
            · simp only [step_state, hs, Bool.true_eq_false, if_false, h1, h2, ne_eq,
                not_false_eq_true, if_true]
            · simp only [step_events, hs, Bool.true_eq_false, if_false, h1, h2, ne_eq,
                not_false_eq_true, if_true, events_append, events_modifier_emissions,
                events_singleton]
          · have h2a : s.modifiers_accumulated = 0 := by
              by_contra hc
              exact h2 hc
            refine ⟨_, _, _, call_listener_of P _ s _ _ _ _
              (listener_quiet P (fuel + 1) s _ ⟨h2a, hq⟩), ?_, ?_⟩
            · simp only [step_state, hs, Bool.true_eq_false, if_false, h1, h2a, ne_eq,
                not_true_eq_false]
            · simp only [step_events, hs, Bool.true_eq_false, if_false, h1, h2a, ne_eq,
                not_true_eq_false, events_nil]

theorem inv_step_state (P : Platform) (s : sticky_modifiers_state) (c : Call) (hI : Inv s) :
    Inv (step_state s c) := by
  obtain ⟨r, s1, tr, hc, hs, -⟩ := call_closed P 0 s c hI
  rw [← hs]
  exact (inv_call P _ s c r s1 tr hI hc).1

theorem run_closed (P : Platform) (fuel : Nat) :
    ∀ (cs : List Call) (s : sticky_modifiers_state), Inv s →
      ∃ tr, run P (fuel + 2) s cs = some (run_state s cs, tr)
        ∧ events tr = run_events P s cs := by
  intro cs
  induction cs with
  | nil => intro s _; exact ⟨[], rfl, rfl⟩
  | cons c rest ih =>
    intro s hI
    obtain ⟨r, s1, tr1, hc, hs, he⟩ := call_closed P fuel s c hI
    subst hs
    obtain ⟨tr2, hr, he2⟩ := ih _ (inv_step_state P s c hI)
    refine ⟨tr1 ++ tr2, ?_, ?_⟩
    · simp only [run, hc, hr, run_state]
    · simp only [events_append, he, he2, run_events]

theorem testBit_modifier_bit_of (b : zmk_behavior_binding) (i : Nat) (hi : i < 8) :
    (modifier_bit_of b).testBit i = decide (i = binding_index b) := by
  show ((1 <<< binding_index b) % 2 ^ 8).testBit i = _
  rw [Nat.testBit_mod_two_pow, Nat.one_shiftLeft, Nat.testBit_two_pow]
  generalize binding_index b = k
  by_cases h : i = k
  · subst h
    simp [hi]
  · have h2 : ¬ k = i := fun hc => h hc.symm
    simp [h, h2]

theorem testBit_or_mod (p : Nat) (b : zmk_behavior_binding) (i : Nat) (hi : i < 8) :
    ((p ||| modifier_bit_of b) % 256).testBit i
      = (p.testBit i || decide (i = binding_index b)) := by
  show ((p ||| modifier_bit_of b) % 2 ^ 8).testBit i = _
  rw [Nat.testBit_mod_two_pow, Nat.testBit_or, testBit_modifier_bit_of b i hi]
  simp [hi]

theorem testBit_xor_mod (p : Nat) (b : zmk_behavior_binding) (i : Nat) (hi : i < 8) :
    ((p ^^^ modifier_bit_of b) % 256).testBit i
      = (p.testBit i ^^ decide (i = binding_index b)) := by
  show ((p ^^^ modifier_bit_of b) % 2 ^ 8).testBit i = _
  rw [Nat.testBit_mod_two_pow, Nat.testBit_xor, testBit_modifier_bit_of b i hi]
  simp [hi]

theorem step_state_pressed_field (s : sticky_modifiers_state) (c : Call) :
    (step_state s c).modifiers_pressed
      = match c with
        | Call.binding_pressed b _ => (s.modifiers_pressed ||| modifier_bit_of b) % 256
        | Call.binding_released b _ => (s.modifiers_pressed ^^^ modifier_bit_of b) % 256
        | Call.listener _ => s.modifiers_pressed := by
  cases c with
  | binding_pressed b e => simp only [step_state]; split_ifs <;> rfl
  | binding_released b e => simp only [step_state]; split_ifs <;> rfl
  | listener eh =>
    cases eh with
    | other => rfl
    | keycode_state_changed ev => simp only [step_state]; split_ifs <;> rfl

theorem run_state_tracks_held :
    ∀ (cs : List Call) (s : sticky_modifiers_state) (H : Nat → Bool),
      (∀ i, i < 8 → s.modifiers_pressed.testBit i = H i) → alternating H cs →
      ∀ i, i < 8 → (run_state s cs).modifiers_pressed.testBit i = held_after H cs i := by
  intro cs
  induction cs with
  | nil => intro s H hH _ i hi; exact hH i hi
  | cons c rest ih =>
    intro s H hH halt i hi
    cases c with
    | binding_pressed b e =>
      refine ih _ _ (fun j hj => ?_) halt.2 i hi
      rw [step_state_pressed_field, testBit_or_mod _ b j hj, hH j hj]
      by_cases hjb : j = binding_index b
      · subst hjb
        simp [Function.update_same]
      · simp [hjb, Function.update_noteq hjb]
    | binding_released b e =>
      refine ih _ _ (fun j hj => ?_) halt.2 i hi
      rw [step_state_pressed_field, testBit_xor_mod _ b j hj, hH j hj]
      by_cases hjb : j = binding_index b
      · subst hjb
        have h1 := halt.1
        simp [h1, Function.update_same]
      · simp [hjb, Function.update_noteq hjb]
    | listener eh =>
      refine ih _ _ (fun j hj => ?_) halt i hi
      rw [step_state_pressed_field]
      exact hH j hj

theorem alternating_append_left :
    ∀ (pre t : List Call) (H : Nat → Bool), alternating H (pre ++ t) → alternating H pre := by
  intro pre
  induction pre with
  | nil => intro t H _; trivial
  | cons c rest ih =>
    intro t H h
    cases c with
    | binding_pressed b e => exact ⟨h.1, ih t _ h.2⟩
    | binding_released b e => exact ⟨h.1, ih t _ h.2⟩
    | listener eh => exact ih t _ h

/-- C15, as stated, fails: two keys (positions 1 and 2) are bound to
modifier 0; key 1 is pressed, key 2 is pressed, key 1 is released. Every key
alternates press and release, key 2 is still held, yet bit 0 of
`modifiers_pressed` is clear. -/
theorem second_key_on_same_modifier_is_forgotten :
    keys_alternate []
        [Call.binding_pressed (sample_binding 0) (sample_key_event 1 10),
         Call.binding_pressed (sample_binding 0) (sample_key_event 2 20),
         Call.binding_released (sample_binding 0) (sample_key_event 1 30)] = true
      ∧ keys_held_after []
        [Call.binding_pressed (sample_binding 0) (sample_key_event 1 10),
         Call.binding_pressed (sample_binding 0) (sample_key_event 2 20),
         Call.binding_released (sample_binding 0) (sample_key_event 1 30)] = [(2, 0)]
      ∧ run_observed sample_platform 2 initial_state
        [Call.binding_pressed (sample_binding 0) (sample_key_event 1 10),
         Call.binding_pressed (sample_binding 0) (sample_key_event 2 20),
         Call.binding_released (sample_binding 0) (sample_key_event 1 30)]
        = some ({ modifiers_pressed := 0, modifiers_accumulated := 1, normal_mode := false }, [])
      ∧ (0 : Nat).testBit 0 = false := by
  decide

/-- C15, amended: for every sequence of calls from the initial state in
which the presses and releases of each modifier index alternate starting
with a press (so at most one key bound to a modifier is held at a time),
every prefix of the sequence runs to completion, and after it bit `i` of
`modifiers_pressed` is set if and only if a key bound to modifier `i` is
held, for every `i` in 0..7. -/
theorem pressed_bits_are_held_modifiers (P : Platform) (fuel : Nat) (cs pre : List Call)
    (halt : alternating (fun _ => false) cs) (hpre : pre <+: cs) :
    ∃ s tr, run P (fuel + 2) initial_state pre = some (s, tr)
      ∧ ∀ i, i < 8 →
        (s.modifiers_pressed.testBit i = true ↔ held_after (fun _ => false) pre i = true) := by
  obtain ⟨t, rfl⟩ := hpre
  obtain ⟨tr, hr, -⟩ := run_closed P fuel pre initial_state inv_initial
  refine ⟨_, tr, hr, fun i hi => ?_⟩
  rw [run_state_tracks_held pre initial_state (fun _ => false) (fun j _ => by
    simp [initial_state]) (alternating_append_left pre t _ halt) i hi]

/-- C15 amended, on press and release of modifier 0 around a press of
modifier 1, looked at after the first two calls. -/
theorem pressed_bits_are_held_modifiers_witness :
    (alternating (fun _ => false)
          [Call.binding_pressed (sample_binding 0) (sample_key_event 1 10),
           Call.binding_pressed (sample_binding 1) (sample_key_event 2 20),
           Call.binding_released (sample_binding 0) (sample_key_event 1 30)]
        ∧ [Call.binding_pressed (sample_binding 0) (sample_key_event 1 10),
           Call.binding_pressed (sample_binding 1) (sample_key_event 2 20)]
          <+: [Call.binding_pressed (sample_binding 0) (sample_key_event 1 10),
           Call.binding_pressed (sample_binding 1) (sample_key_event 2 20),
           Call.binding_released (sample_binding 0) (sample_key_event 1 30)])
      ∧ ∃ s tr, run sample_platform (0 + 2) initial_state
            [Call.binding_pressed (sample_binding 0) (sample_key_event 1 10),
             Call.binding_pressed (sample_binding 1) (sample_key_event 2 20)] = some (s, tr)
          ∧ ∀ i, i < 8 →
            (s.modifiers_pressed.testBit i = true ↔ held_after (fun _ => false)
              [Call.binding_pressed (sample_binding 0) (sample_key_event 1 10),
               Call.binding_pressed (sample_binding 1) (sample_key_event 2 20)] i = true) :=
  have halt : alternating (fun _ => false)
      [Call.binding_pressed (sample_binding 0) (sample_key_event 1 10),
       Call.binding_pressed (sample_binding 1) (sample_key_event 2 20),
       Call.binding_released (sample_binding 0) (sample_key_event 1 30)] :=
    ⟨rfl, rfl, rfl, trivial⟩
  have hpre : [Call.binding_pressed (sample_binding 0) (sample_key_event 1 10),
       Call.binding_pressed (sample_binding 1) (sample_key_event 2 20)]
      <+: [Call.binding_pressed (sample_binding 0) (sample_key_event 1 10),
       Call.binding_pressed (sample_binding 1) (sample_key_event 2 20),
       Call.binding_released (sample_binding 0) (sample_key_event 1 30)] :=
    ⟨[Call.binding_released (sample_binding 0) (sample_key_event 1 30)], rfl⟩
  ⟨⟨halt, hpre⟩, pressed_bits_are_held_modifiers sample_platform 0 _ _ halt hpre⟩

/-! ## Modifiers down on the bus -/

theorem modifier_encoded_injective (P : Platform)
    (hP : ∀ i, i < 8 → modifier_encoded P i &&& 0xF = i) (i j : Nat) (hi : i < 8) (hj : j < 8) :
    modifier_encoded P i = modifier_encoded P j ↔ i = j := by
  constructor
  · intro h
    rw [← hP i hi, ← hP j hj, h]
  · intro h
    rw [h]

theorem down_after_nil (P : Platform) (D : Nat → Bool) : down_after P D [] = D := rfl

theorem down_after_append (P : Platform) (D : Nat → Bool) (a b : List BusEvent) :
    down_after P D (a ++ b) = down_after P (down_after P D a) b := by
  unfold down_after
  rw [List.foldl_append]

theorem down_after_released (P : Platform) (D : Nat → Bool) (ev : zmk_keycode_state_changed) :
    down_after P D [BusEvent.released ev] = D := rfl

theorem down_after_raised (P : Platform) (hP : ∀ i, i < 8 → modifier_encoded P i &&& 0xF = i)
    (D : Nat → Bool) (j : Nat) (p : Bool) (t : Int) (hj : j < 8) (i : Nat) (hi : i < 8) :
    down_after P D [BusEvent.raised (modifier_encoded P j) p t] i
      = if i = j then p else D i := by
  show (if modifier_encoded P i = modifier_encoded P j then p else D i) = _
  simp only [modifier_encoded_injective P hP i j hi hj]

theorem down_after_modifier_events (P : Platform)
    (hP : ∀ i, i < 8 → modifier_encoded P i &&& 0xF = i) (p : Bool) (t : Int) :
    ∀ (l : List Nat) (D : Nat → Bool), (∀ j, j ∈ l → j < 8) → ∀ i, i < 8 →
      down_after P D (modifier_events P p t l) i = if i ∈ l then p else D i := by
  intro l
  induction l with
  | nil => intro D _ i _; simp [modifier_events, down_after]
  | cons j rest ih =>
    intro D hl i hi
    have hj : j < 8 := hl j (List.mem_cons_self j rest)
    have hrest : ∀ k, k ∈ rest → k < 8 := fun k hk => hl k (List.mem_cons_of_mem j hk)
    have hstep : down_after P D (modifier_events P p t (j :: rest))
        = down_after P (down_after P D [BusEvent.raised (modifier_encoded P j) p t])
            (modifier_events P p t rest) := rfl
    rw [hstep, ih _ hrest i hi, down_after_raised P hP D j p t hj i hi]
    by_cases h1 : i ∈ rest
    · simp [h1]
    · by_cases h2 : i = j
      · simp [h2]
      · simp [h1, h2]

theorem mem_set_bits_iff (m i : Nat) : i ∈ set_bits m ↔ i < 8 ∧ m.testBit i = true := by
  unfold set_bits
  rw [List.mem_filter, List.mem_range]

theorem down_after_set_bits (P : Platform)
    (hP : ∀ i, i < 8 → modifier_encoded P i &&& 0xF = i) (p : Bool) (t : Int) (m : Nat)
    (D : Nat → Bool) (i : Nat) (hi : i < 8) :
    down_after P D (modifier_events P p t (set_bits m)) i
      = if m.testBit i = true then p else D i := by
  rw [down_after_modifier_events P hP p t _ D (fun j hj => ((mem_set_bits_iff m j).mp hj).1) i hi]
  simp only [mem_set_bits_iff, hi, true_and]

theorem binding_index_of_encodes (P : Platform) (b : zmk_behavior_binding)
    (h : binding_encodes P b) :
    binding_index b < 8 ∧ b.param1 = modifier_encoded P (binding_index b) := by
  have hk : binding_index b = b.param1 &&& 0xF :=
    Nat.mod_eq_of_lt (lt_trans h.1 (by norm_num))
  rw [hk]
  exact h

theorem pressed_keeps_down (P : Platform) (hP : ∀ i, i < 8 → modifier_encoded P i &&& 0xF = i)
    (s : sticky_modifiers_state) (D : Nat → Bool) (b : zmk_behavior_binding)
    (e : zmk_behavior_binding_event)
    (hsub : ∀ i, i < 8 → D i = true → s.modifiers_pressed.testBit i = true)
    (hemp : s.normal_mode = false → ∀ i, i < 8 → D i = false)
    (henc : binding_encodes P b) :
    (∀ i, i < 8 → down_after P D (step_events P s (Call.binding_pressed b e)) i = true →
        (step_state s (Call.binding_pressed b e)).modifiers_pressed.testBit i = true)
      ∧ ((step_state s (Call.binding_pressed b e)).normal_mode = false →
        ∀ i, i < 8 → down_after P D (step_events P s (Call.binding_pressed b e)) i = false) := by
  obtain ⟨hk, hpar⟩ := binding_index_of_encodes P b henc
  have hfield : ∀ i, i < 8 →
      (step_state s (Call.binding_pressed b e)).modifiers_pressed.testBit i
        = (s.modifiers_pressed.testBit i || decide (i = binding_index b)) := by
    intro i hi
    rw [step_state_pressed_field, testBit_or_mod _ b i hi]
  cases hm : s.normal_mode with
  | true =>
    have hev : step_events P s (Call.binding_pressed b e)
        = [BusEvent.raised (modifier_encoded P (binding_index b)) true e.timestamp] := by
      simp only [step_events, hm, if_true]
      rw [← hpar]
    have hst : (step_state s (Call.binding_pressed b e)).normal_mode = true := by
      simp only [step_state, hm, if_true]
    refine ⟨fun i hi h => ?_, fun hc => ?_⟩
    · rw [hev, down_after_raised P hP D _ true _ hk i hi] at h
      rw [hfield i hi]
      by_cases hik : i = binding_index b
      · simp [hik]
      · rw [if_neg hik] at h
        simp [hsub i hi h]
    · rw [hst] at hc
      exact Bool.noConfusion hc
  | false =>
    have hD := hemp hm
    by_cases hb : s.modifiers_accumulated &&& modifier_bit_of b = 0
    · have hev : step_events P s (Call.binding_pressed b e) = [] := by
        simp only [step_events, hm, hb]
        simp
      rw [hev, down_after_nil]
      refine ⟨fun i hi h => ?_, fun _ i hi => hD i hi⟩
      rw [hD i hi] at h
      exact Bool.noConfusion h
    · have hev : step_events P s (Call.binding_pressed b e)
          = modifier_events P true e.timestamp (set_bits (modifier_bit_of b))
            ++ modifier_events P false e.timestamp (set_bits (modifier_bit_of b))
            ++ modifier_events P true e.timestamp (set_bits (modifier_bit_of b)) := by
        simp only [step_events]
        rw [if_neg (by rw [hm]; exact Bool.false_ne_true), if_pos hb]
      have hst : (step_state s (Call.binding_pressed b e)).normal_mode = true := by
        simp only [step_state]
        rw [if_neg (by rw [hm]; exact Bool.false_ne_true), if_pos hb]
      refine ⟨fun i hi h => ?_, fun hc => ?_⟩
      · rw [hev, down_after_append, down_after_append, down_after_set_bits P hP _ _ _ _ i hi,
          testBit_modifier_bit_of b i hi] at h
        rw [hfield i hi]
        by_cases hik : i = binding_index b
        · simp [hik]
        · simp only [hik, decide_False, Bool.false_eq_true, if_false] at h
          rw [down_after_set_bits P hP _ _ _ _ i hi, testBit_modifier_bit_of b i hi] at h
          simp only [hik, decide_False, Bool.false_eq_true, if_false] at h
          rw [down_after_set_bits P hP _ _ _ _ i hi, testBit_modifier_bit_of b i hi] at h
          simp only [hik, decide_False, Bool.false_eq_true, if_false] at h
          rw [hD i hi] at h
          exact Bool.noConfusion h
      · rw [hst] at hc
        exact Bool.noConfusion hc

theorem released_keeps_down (P : Platform) (hP : ∀ i, i < 8 → modifier_encoded P i &&& 0xF = i)
    (s : sticky_modifiers_state) (D : Nat → Bool) (b : zmk_behavior_binding)
    (e : zmk_behavior_binding_event)
    (hsub : ∀ i, i < 8 → D i = true → s.modifiers_pressed.testBit i = true)
    (hemp : s.normal_mode = false → ∀ i, i < 8 → D i = false)
    (henc : binding_encodes P b) :
    (∀ i, i < 8 → down_after P D (step_events P s (Call.binding_released b e)) i = true →
        (step_state s (Call.binding_released b e)).modifiers_pressed.testBit i = true)
      ∧ ((step_state s (Call.binding_released b e)).normal_mode = false →
        ∀ i, i < 8 → down_after P D (step_events P s (Call.binding_released b e)) i = false) := by
  obtain ⟨hk, hpar⟩ := binding_index_of_encodes P b henc
  have hfield : ∀ i, i < 8 →
      (step_state s (Call.binding_released b e)).modifiers_pressed.testBit i
        = (s.modifiers_pressed.testBit i ^^ decide (i = binding_index b)) := by
    intro i hi
    rw [step_state_pressed_field, testBit_xor_mod _ b i hi]
  cases hm : s.normal_mode with
  | true =>
    have hev : step_events P s (Call.binding_released b e)
        = [BusEvent.raised (modifier_encoded P (binding_index b)) false e.timestamp] := by
      simp only [step_events, hm, if_true]
      rw [← hpar]
    have hfirst : ∀ i, i < 8 →
        down_after P D (step_events P s (Call.binding_released b e)) i = true →
        (step_state s (Call.binding_released b e)).modifiers_pressed.testBit i = true := by
      intro i hi h
      rw [hev, down_after_raised P hP D _ false _ hk i hi] at h
      rw [hfield i hi]
      by_cases hik : i = binding_index b
      · rw [if_pos hik] at h
        exact Bool.noConfusion h
      · rw [if_neg hik] at h
        simp [hsub i hi h, hik]
    refine ⟨hfirst, fun hc i hi => ?_⟩
    have hzero : (step_state s (Call.binding_released b e)).modifiers_pressed = 0 := by
      by_cases h0 : (s.modifiers_pressed ^^^ modifier_bit_of b) % 256 = 0
      · rw [step_state_pressed_field]
        exact h0
      · exfalso
        have hst : (step_state s (Call.binding_released b e)).normal_mode = true := by
          simp only [step_state]
          rw [if_pos hm, if_neg h0]
          exact hm
        rw [hst] at hc
        exact Bool.noConfusion hc
    cases hd : down_after P D (step_events P s (Call.binding_released b e)) i with
    | false => rfl
    | true =>
      have := hfirst i hi hd
      rw [hzero, Nat.zero_testBit] at this
      exact Bool.noConfusion this
  | false =>
    have hD := hemp hm
    have hev : step_events P s (Call.binding_released b e) = [] := by
      simp only [step_events, hm]
      simp
    rw [hev, down_after_nil]
    refine ⟨fun i hi h => ?_, fun _ i hi => hD i hi⟩
    rw [hD i hi] at h
    exact Bool.noConfusion h

theorem listener_keeps_down (P : Platform) (hP : ∀ i, i < 8 → modifier_encoded P i &&& 0xF = i)
    (s : sticky_modifiers_state) (D : Nat → Bool) (eh : zmk_event_t) (hI : Inv s)
    (hsub : ∀ i, i < 8 → D i = true → s.modifiers_pressed.testBit i = true)
    (hemp : s.normal_mode = false → ∀ i, i < 8 → D i = false) :
    (∀ i, i < 8 → down_after P D (step_events P s (Call.listener eh)) i = true →
        (step_state s (Call.listener eh)).modifiers_pressed.testBit i = true)
      ∧ ((step_state s (Call.listener eh)).normal_mode = false →
        ∀ i, i < 8 → down_after P D (step_events P s (Call.listener eh)) i = false) := by
  have hfield : (step_state s (Call.listener eh)).modifiers_pressed = s.modifiers_pressed := by
    rw [step_state_pressed_field]
  rw [hfield]
  cases eh with
  | other => exact ⟨hsub, hemp⟩
  | keycode_state_changed ev =>
    cases hs : ev.state with
    | false =>
      have hev : step_events P s (Call.listener (zmk_event_t.keycode_state_changed ev)) = [] := by
        simp only [step_events, hs, if_true]
      have hst : step_state s (Call.listener (zmk_event_t.keycode_state_changed ev)) = s := by
        simp only [step_state, hs, if_true]
      rw [hev, hst, down_after_nil]
      exact ⟨hsub, hemp⟩
    | true =>
      by_cases h1 : s.modifiers_pressed ≠ 0 ∧ s.normal_mode = false
      · have hev : step_events P s (Call.listener (zmk_event_t.keycode_state_changed ev))
            = modifier_events P true ev.timestamp (set_bits s.modifiers_pressed) := by
          simp only [step_events]
          rw [if_neg (by rw [hs]; exact fun h => Bool.noConfusion h), if_pos h1]
        have hst : (step_state s (Call.listener
            (zmk_event_t.keycode_state_changed ev))).normal_mode = true := by
          simp only [step_state]
          rw [if_neg (by rw [hs]; exact fun h => Bool.noConfusion h), if_pos h1]
        refine ⟨fun i hi h => ?_, fun hc => ?_⟩
        · rw [hev, down_after_set_bits P hP _ _ _ _ i hi] at h
          by_cases hb : s.modifiers_pressed.testBit i = true
          · exact hb
          · rw [if_neg hb] at h
            exact hsub i hi h
        · rw [hst] at hc
          exact Bool.noConfusion hc
      · by_cases h2 : s.modifiers_accumulated ≠ 0
        · have hm : s.normal_mode = false := by
            cases hmm : s.normal_mode with
            | false => rfl
            | true => exact absurd (hI.2 hmm) h2
          have hD := hemp hm
          have hev : step_events P s (Call.listener (zmk_event_t.keycode_state_changed ev))
              = modifier_events P true ev.timestamp (set_bits s.modifiers_accumulated)
                ++ [BusEvent.released ev]
                ++ modifier_events P false ev.timestamp (set_bits s.modifiers_accumulated) := by
            simp only [step_events, hs, Bool.true_eq_false, if_false, h1, h2, ne_eq,
              not_false_eq_true, if_true]
          have hall : ∀ i, i < 8 → down_after P D
              (step_events P s (Call.listener (zmk_event_t.keycode_state_changed ev))) i
                = false := by
            intro i hi
            rw [hev, down_after_append, down_after_append, down_after_released,
              down_after_set_bits P hP _ _ _ _ i hi]
            by_cases hb : s.modifiers_accumulated.testBit i = true
            · rw [if_pos hb]
            · rw [if_neg hb, down_after_set_bits P hP _ _ _ _ i hi, if_neg hb]
              exact hD i hi
          refine ⟨fun i hi h => ?_, fun _ i hi => hall i hi⟩
          rw [hall i hi] at h
          exact Bool.noConfusion h
        · have h2a : s.modifiers_accumulated = 0 := by
            by_contra hc
            exact h2 hc
          have hev : step_events P s (Call.listener (zmk_event_t.keycode_state_changed ev))
              = [] := by
            simp only [step_events, hs, Bool.true_eq_false, if_false, h1, h2a, ne_eq,
              not_true_eq_false]
          have hst : step_state s (Call.listener (zmk_event_t.keycode_state_changed ev)) = s := by
            simp only [step_state, hs, Bool.true_eq_false, if_false, h1, h2a, ne_eq,
              not_true_eq_false]
          rw [hev, hst, down_after_nil]
          exact ⟨hsub, hemp⟩

theorem run_keeps_down (P : Platform) (hP : ∀ i, i < 8 → modifier_encoded P i &&& 0xF = i) :
    ∀ (cs : List Call) (s : sticky_modifiers_state) (D : Nat → Bool), Inv s →
      (∀ i, i < 8 → D i = true → s.modifiers_pressed.testBit i = true) →
      (s.normal_mode = false → ∀ i, i < 8 → D i = false) →
      calls_encoded P cs →
      (∀ i, i < 8 → down_after P D (run_events P s cs) i = true →
          (run_state s cs).modifiers_pressed.testBit i = true)
        ∧ ((run_state s cs).normal_mode = false →
          ∀ i, i < 8 → down_after P D (run_events P s cs) i = false) := by
  intro cs
  induction cs with
  | nil => intro s D _ hsub hemp _; exact ⟨hsub, hemp⟩
  | cons c rest ih =>
    intro s D hI hsub hemp henc
    have hI1 := inv_step_state P s c hI
    simp only [run_events, run_state, down_after_append]
    cases c with
    | binding_pressed b e =>
      obtain ⟨h1, h2⟩ := pressed_keeps_down P hP s D b e hsub hemp henc.1
      exact ih _ _ hI1 h1 h2 henc.2
    | binding_released b e =>
      obtain ⟨h1, h2⟩ := released_keeps_down P hP s D b e hsub hemp henc.1
      exact ih _ _ hI1 h1 h2 henc.2
    | listener eh =>
      obtain ⟨h1, h2⟩ := listener_keeps_down P hP s D eh hI hsub hemp
      exact ih _ _ hI1 h1 h2 henc

/-- C17, evaluated where it fails: sticky control is tapped, sticky shift is
pressed and held, then control is pressed again. Presses and releases of
each modifier alternate and every `param1` is the modifier's own encoded
keycode. The double tap turns normal mode on with control and shift in
`modifiers_pressed`, but only control events were emitted: shift is held in
normal mode and is not down on the bus. -/
theorem double_tap_leaves_other_held_modifier_up :
    run_observed sample_platform 2 initial_state
        [Call.binding_pressed (sample_binding 0) (sample_key_event 1 10),
         Call.binding_released (sample_binding 0) (sample_key_event 1 20),
         Call.binding_pressed (sample_binding 1) (sample_key_event 2 30),
         Call.binding_pressed (sample_binding 0) (sample_key_event 1 40)]
        = some ({ modifiers_pressed := 3, modifiers_accumulated := 0, normal_mode := true },
            [BusEvent.raised 0x0700E0 true 40, BusEvent.raised 0x0700E0 false 40,
             BusEvent.raised 0x0700E0 true 40])
      ∧ alternating (fun _ => false)
        [Call.binding_pressed (sample_binding 0) (sample_key_event 1 10),
         Call.binding_released (sample_binding 0) (sample_key_event 1 20),
         Call.binding_pressed (sample_binding 1) (sample_key_event 2 30),
         Call.binding_pressed (sample_binding 0) (sample_key_event 1 40)]
      ∧ calls_encoded sample_platform
        [Call.binding_pressed (sample_binding 0) (sample_key_event 1 10),
         Call.binding_released (sample_binding 0) (sample_key_event 1 20),
         Call.binding_pressed (sample_binding 1) (sample_key_event 2 30),
         Call.binding_pressed (sample_binding 0) (sample_key_event 1 40)]
      ∧ (3 : Nat).testBit 1 = true
      ∧ modifier_encoded sample_platform 1 = 0x0700E1
      ∧ down_after sample_platform (fun _ => false)
          [BusEvent.raised 0x0700E0 true 40, BusEvent.raised 0x0700E0 false 40,
           BusEvent.raised 0x0700E0 true 40] 1 = false :=
  ⟨by decide, ⟨rfl, rfl, rfl, rfl, trivial⟩,
    ⟨⟨by decide, by decide⟩, ⟨by decide, by decide⟩, ⟨by decide, by decide⟩,
      ⟨by decide, by decide⟩, trivial⟩,
    by decide, by decide, by decide⟩

/-- C20: on a platform where the encoded keycode of modifier `i` has low
nibble `i`, for every sequence of calls from the initial state in which each
binding is for a modifier in 0..7 with that modifier's encoded keycode as
`param1`, with arbitrary bus events in between (in particular for every
prefix of such a sequence, and whatever the order of presses and releases):
the sequence runs to completion, and afterwards every modifier whose most
recent engine-emitted modifier event is a press has its bit set in
`modifiers_pressed`, and there is no such modifier when normal mode is
off. -/
theorem no_modifier_stays_down (P : Platform) (fuel : Nat) (cs : List Call)
    (hP : ∀ i, i < 8 → modifier_encoded P i &&& 0xF = i) (henc : calls_encoded P cs) :
    ∃ s tr, run P (fuel + 2) initial_state cs = some (s, tr)
      ∧ (∀ i, i < 8 → down_after P (fun _ => false) (events tr) i = true →
          s.modifiers_pressed.testBit i = true)
      ∧ (s.normal_mode = false →
          ∀ i, i < 8 → down_after P (fun _ => false) (events tr) i = false) := by
  obtain ⟨tr, hr, he⟩ := run_closed P fuel cs initial_state inv_initial
  refine ⟨_, tr, hr, ?_⟩
  rw [he]
  exact run_keeps_down P hP cs initial_state (fun _ => false) inv_initial
    (fun i _ h => Bool.noConfusion h) (fun _ _ _ => rfl) henc

/-- C20 on the sample platform: control pressed, a key pressed while it is
held, control released. -/
theorem no_modifier_stays_down_witness :
    ((∀ i, i < 8 → modifier_encoded sample_platform i &&& 0xF = i)
        ∧ calls_encoded sample_platform
          [Call.binding_pressed (sample_binding 0) (sample_key_event 1 10),
           Call.listener (zmk_event_t.keycode_state_changed (sample_key 4 20)),
           Call.binding_released (sample_binding 0) (sample_key_event 1 30)])
      ∧ ∃ s tr, run sample_platform (0 + 2) initial_state
            [Call.binding_pressed (sample_binding 0) (sample_key_event 1 10),
             Call.listener (zmk_event_t.keycode_state_changed (sample_key 4 20)),
             Call.binding_released (sample_binding 0) (sample_key_event 1 30)] = some (s, tr)
          ∧ (∀ i, i < 8 → down_after sample_platform (fun _ => false) (events tr) i = true →
              s.modifiers_pressed.testBit i = true)
          ∧ (s.normal_mode = false →
              ∀ i, i < 8 → down_after sample_platform (fun _ => false) (events tr) i = false) :=
  have hP : ∀ i, i < 8 → modifier_encoded sample_platform i &&& 0xF = i := by decide
  have henc : calls_encoded sample_platform
      [Call.binding_pressed (sample_binding 0) (sample_key_event 1 10),
       Call.listener (zmk_event_t.keycode_state_changed (sample_key 4 20)),
       Call.binding_released (sample_binding 0) (sample_key_event 1 30)] :=
    ⟨⟨by decide, by decide⟩, ⟨by decide, by decide⟩, trivial⟩
  ⟨⟨hP, henc⟩, no_modifier_stays_down sample_platform 0 _ hP henc⟩

end StickyModifiers
